import Mathlib

/-!
# ruvmail: overlay transport session lifecycle and inbound identity check

A shallow embedding of `internal/transport/ruvchain.go` (the registry of
connections, the map of dial tickets, `Dial`, `connectionAcceptLoop`,
`streamAcceptLoop`) and of `Backend.AnonymousLogin` from
`internal/smtpserver/backend.go`, together with the properties of these
functions that the specification states.

Go strings are `String`, byte slices are `List Nat` (each byte a natural
number below 256), Go maps are functions into `Option`, and the goroutines
are threads of a labelled transition system whose atomic steps are the
individual `sync.Map` operations and external calls of the source.
-/

namespace Ruvmail

/-! ## `encoding/hex` (Go standard library, as used by the repository) -/

/-- Go `hex.hextable`: the sixteen lowercase hexadecimal digits. -/
def hextable : List Char := "0123456789abcdef".toList

/-- Digit `n` of `hextable` (`hextable[n]` in Go, for `n < 16`). -/
def hexDigit (n : Nat) : Char := hextable.getD n '0'

/-- Go `hex.fromHexChar`: the value of a hexadecimal digit of either case. -/
def fromHexChar (c : Char) : Option Nat :=
  if '0' ≤ c ∧ c ≤ '9' then some (c.toNat - '0'.toNat)
  else if 'a' ≤ c ∧ c ≤ 'f' then some (c.toNat - 'a'.toNat + 10)
  else if 'A' ≤ c ∧ c ≤ 'F' then some (c.toNat - 'A'.toNat + 10)
  else none

/-- Go `hex.Encode` on the characters: two digits per byte, high nibble first
(`hextable[v>>4]`, `hextable[v&0x0f]`, with `v` a byte). -/
def encodeChars : List Nat → List Char
  | [] => []
  | v :: rest => hexDigit (v % 256 / 16) :: hexDigit (v % 16) :: encodeChars rest

/-- Go `hex.Decode` on the characters: pairs of digits become bytes; an odd
length or a character that is no hexadecimal digit is an error. -/
def decodeChars : List Char → Option (List Nat)
  | [] => some []
  | [_] => none
  | p :: q :: rest =>
    match fromHexChar p, fromHexChar q with
    | some a, some b =>
      match decodeChars rest with
      | some bs => some ((a * 16 + b) :: bs)
      | none => none
    | _, _ => none

/-- Go `hex.EncodeToString`. -/
def EncodeToString (src : List Nat) : String := String.mk (encodeChars src)

/-- Go `hex.DecodeString` (`none` stands for a non-nil error). -/
def DecodeString (s : String) : Option (List Nat) := decodeChars s.data

/-! ## `smtpserver.Backend.AnonymousLogin` -/

/-- Go `type BackendMode int`. -/
abbrev BackendMode := Int

/-- First constant of the `iota` block. -/
def BackendModeInternal : BackendMode := 0

/-- Second constant of the `iota` block. -/
def BackendModeExternal : BackendMode := 1

/-- The two fields of `smtp.ConnectionState` that `AnonymousLogin` reads:
`state.RemoteAddr.String()` and `state.Hostname`. -/
structure ConnectionState where
  RemoteAddr : String
  Hostname : String
  deriving DecidableEq, Repr

/-- Go `SessionRemote` as built by `AnonymousLogin`: the connection state and
the decoded public key. -/
structure SessionRemote where
  state : ConnectionState
  public : List Nat
  deriving DecidableEq, Repr

/-- The error values `AnonymousLogin` returns. -/
inductive LoginError where
  | notExpectingAnonymous
  | hexDecodeString
  | notWhoYouClaimToBe
  | anonymousLoginFailed
  deriving DecidableEq, Repr

/-- Go `(*Backend).AnonymousLogin`, as a function of the backend mode and the
connection state. -/
def AnonymousLogin (mode : BackendMode) (state : ConnectionState) :
    Except LoginError SessionRemote :=
  if mode = BackendModeInternal then
    .error .notExpectingAnonymous
  else if mode = BackendModeExternal then
    match DecodeString state.RemoteAddr with
    | none => .error .hexDecodeString
    | some pks =>
      let remote := EncodeToString pks
      if state.Hostname ≠ remote then
        .error .notWhoYouClaimToBe
      else
        .ok { state := state, public := pks }
  else
    .error .anonymousLoginFailed

/-! ## `transport.RuvchainTransport`: shared state -/

/-- Go `sync.Map` with string keys. -/
abbrev SyncMap (α : Type) := String → Option α

/-- Go `(*sync.Map).Load`. -/
def SyncMap.Load {α : Type} (m : SyncMap α) (key : String) : Option α := m key

/-- Go `(*sync.Map).Store`. -/
def SyncMap.Store {α : Type} (m : SyncMap α) (key : String) (value : α) : SyncMap α :=
  fun k => if k = key then some value else m k

/-- Go `(*sync.Map).Delete`. -/
def SyncMap.Delete {α : Type} (m : SyncMap α) (key : String) : SyncMap α :=
  fun k => if k = key then none else m k

/-- Go `(*sync.Map).LoadAndDelete`: the value found, and the map without the key. -/
def SyncMap.LoadAndDelete {α : Type} (m : SyncMap α) (key : String) : Option α × SyncMap α :=
  (m key, m.Delete key)

/-- A `quic.Connection`: an identity (connections returned by distinct
`transport.Dial` or `listener.Accept` calls are distinct) and its
`RemoteAddr()`, the overlay address of the peer. -/
structure Conn where
  id : Nat
  remote : List Nat
  deriving DecidableEq, Repr

/-- Modelled from the spec: `iwt.Addr.String()`, the string form of the
address of a connection, which the source only calls
(`qc.RemoteAddr().String()`); section 6 of the specification: peer addresses
are the lowercase hexadecimal encoding of the raw public-key bytes. -/
def Conn.RemoteAddrString (qc : Conn) : String := EncodeToString qc.remote

/-- A `context.Context` made by `Dial`: the timeout context `ctx` of the
`i`-th call, or the `k`-th `dialctx` that call derived from `ctx` with
`context.WithCancel`. -/
inductive Ctx where
  | timeout (i : Nat)
  | dial (i : Nat) (k : Nat)
  deriving DecidableEq, Repr

/-- Whether `Done()` of a context is closed, given the contexts that were
cancelled or whose deadline passed: a context is done when it or its parent
is. -/
def Ctx.isDone (cancelled : List Ctx) : Ctx → Bool
  | .timeout i => decide (Ctx.timeout i ∈ cancelled)
  | .dial i k => decide (Ctx.dial i k ∈ cancelled) || decide (Ctx.timeout i ∈ cancelled)

/-- The result of an external call: success or an error value. -/
inductive Outcome where
  | ok
  | err (e : Nat)
  deriving DecidableEq, Repr

/-- The `error` value an external call returns: `nil` (`none`) on success. -/
def Outcome.error : Outcome → Option Nat
  | .ok => none
  | .err e => some e

/-- What `Dial` returns. -/
inductive DialResult where
  | hexError
  | connectError (e : Nat)
  | errClosed
  | openError (e : Nat)
  | session (qc : Conn) (qs : Nat) (err : Option Nat)
  deriving DecidableEq, Repr

/-- A deferred call of `Dial`. -/
inductive Defer where
  | cancel (c : Ctx)
  | deleteTicket
  deriving DecidableEq, Repr

/-- The program points of `Dial`, one per shared-memory operation or
external call. -/
inductive DialPC where
  | load1
  | loadTicket
  | wait (d : Ctx)
  | load2
  | storeTicket
  | decode (dialctx : Ctx)
  | connect (dialctx : Ctx) (addr : List Nat)
  | storeConn (qc : Conn)
  | openStream
  | kick (qc : Conn) (qs : Nat)
  | unwind (r : DialResult)
  | done (r : DialResult)
  deriving DecidableEq, Repr

/-- The local state of one `Dial(host)` call: its index among the calls,
the variables `retry` and `qc`, the stack of deferred calls, how many
`dialctx` it made, its program point, and two counters of the external
calls it started (`transport.Dial` and `OpenStreamSync`). -/
structure DialCall where
  id : Nat
  host : String
  retry : Bool
  qc : Option Conn
  defers : List Defer
  tickets : Nat
  pc : DialPC
  connects : Nat
  opens : Nat
  deriving DecidableEq, Repr

/-- The program points of `connectionAcceptLoop`. -/
inductive AcceptPC where
  | accept
  | evict (qc : Conn)
  | closeOld (qc : Conn) (eqc : Conn)
  | install (qc : Conn)
  | takeTicket (qc : Conn)
  | cancel (qc : Conn) (dial : Ctx)
  | spawn (qc : Conn)
  | stopped
  deriving DecidableEq, Repr

/-- The program points of `streamAcceptLoop`. -/
inductive StreamPC where
  | acceptStream
  | push (qs : Nat)
  | delete
  | close
  | finished
  deriving DecidableEq, Repr

/-- One `streamAcceptLoop(qc)` goroutine. -/
structure StreamLoop where
  qc : Conn
  pc : StreamPC
  deriving DecidableEq, Repr

/-- The state of a `RuvchainTransport` and of the goroutines working on it:
the maps `sessions` and `dials`, the channel `incoming` (capacity 1), the
contexts that are cancelled, the `CloseWithError` calls made so far, the
counters for fresh connections and streams, and the threads. -/
structure State where
  sessions : SyncMap Conn
  dials : SyncMap Ctx
  incoming : List (Conn × Nat)
  cancelled : List Ctx
  closed : List (Conn × String)
  nextConn : Nat
  nextStream : Nat
  acceptor : AcceptPC
  loops : List StreamLoop
  calls : List DialCall

/-- A transport right after `NewRuvchainTransport`: empty maps, the accept
loop started, no call made. -/
def State.init : State where
  sessions := fun _ => none
  dials := fun _ => none
  incoming := []
  cancelled := []
  closed := []
  nextConn := 0
  nextStream := 0
  acceptor := .accept
  loops := []
  calls := []

/-- Go `copy(addr, k)` into `addr := make(iwt.Addr, ed25519.PublicKeySize)`:
the first 32 bytes of `k`, zero-filled. -/
def copyAddr (k : List Nat) : List Nat := (k ++ List.replicate 32 0).take 32

/-- The state of a `Dial(host)` call at its entry: `ctx, cancel :=
context.WithTimeout(...)`, `defer cancel()`, `var retry bool`. -/
def DialCall.new (i : Nat) (host : String) : DialCall where
  id := i
  host := host
  retry := false
  qc := none
  defers := [.cancel (.timeout i)]
  tickets := 0
  pc := .load1
  connects := 0
  opens := 0

/-- Running one deferred call of `Dial(host)`. -/
def Defer.run (host : String) (s : State) : Defer → State
  | .cancel c => { s with cancelled := c :: s.cancelled }
  | .deleteTicket => { s with dials := s.dials.Delete host }

/-! ## `Dial`, `connectionAcceptLoop`, `streamAcceptLoop` as atomic steps -/

/-- One atomic step of a `Dial(host)` call `t` in state `s`; `o` is the result
of the external call when the step is one (`transport.Dial`,
`OpenStreamSync`, `Write`). The result is the state after the step (the
list of calls left as it is) and the new local state of the call; `none`
when the call is blocked (`<-dial.Done()` on a context that is not done) or
has returned. -/
def Dial (s : State) (t : DialCall) (o : Outcome) : Option (State × DialCall) :=
  match t.pc with
  | .load1 =>
    -- retry: qc, ok := t.sessions.Load(host)
    match s.sessions.Load t.host with
    | some qc => some (s, { t with qc := some qc, pc := .openStream })
    | none => some (s, { t with qc := none, pc := .loadTicket })
  | .loadTicket =>
    -- if dial, ok := t.dials.Load(host); ok
    match s.dials.Load t.host with
    | some d => some (s, { t with pc := .wait d })
    | none => some (s, { t with pc := .load2 })
  | .wait d =>
    -- <-dial.(*ruvchainDial).Done()
    if d.isDone s.cancelled then some (s, { t with pc := .load2 }) else none
  | .load2 =>
    -- if qc, ok = t.sessions.Load(host); !ok
    match s.sessions.Load t.host with
    | some qc => some (s, { t with qc := some qc, pc := .openStream })
    | none => some (s, { t with qc := none, pc := .storeTicket })
  | .storeTicket =>
    -- dialctx, dialcancel := context.WithCancel(ctx); defer dialcancel()
    -- t.dials.Store(host, &ruvchainDial{dialctx, dialcancel}); defer t.dials.Delete(host)
    let dialctx := Ctx.dial t.id t.tickets
    some ({ s with dials := s.dials.Store t.host dialctx },
          { t with defers := .deleteTicket :: .cancel dialctx :: t.defers,
                   tickets := t.tickets + 1, pc := .decode dialctx })
  | .decode dialctx =>
    -- k, err := hex.DecodeString(host); copy(addr, k); t.transport.Dial(dialctx, addr, ...)
    match DecodeString t.host with
    | none => some (s, { t with pc := .unwind .hexError })
    | some k => some (s, { t with pc := .connect dialctx (copyAddr k), connects := t.connects + 1 })
  | .connect _ addr =>
    -- if qc, err = t.transport.Dial(...); err != nil
    match o with
    | .err e => some (s, { t with pc := .unwind (.connectError e) })
    | .ok =>
      let qc : Conn := { id := s.nextConn, remote := addr }
      some ({ s with nextConn := s.nextConn + 1 }, { t with qc := some qc, pc := .storeConn qc })
  | .storeConn qc =>
    -- t.sessions.Store(host, qc); go t.streamAcceptLoop(qc)
    some ({ s with sessions := s.sessions.Store t.host qc,
                   loops := s.loops ++ [{ qc := qc, pc := .acceptStream }] },
          { t with pc := .openStream })
  | .openStream =>
    -- if qc == nil ... else qs, err := qc.OpenStreamSync(ctx)
    match t.qc with
    | none => some (s, { t with pc := .unwind .errClosed })
    | some qc =>
      match o with
      | .ok =>
        some ({ s with nextStream := s.nextStream + 1 },
              { t with opens := t.opens + 1, pc := .kick qc s.nextStream })
      | .err e =>
        if !t.retry then
          some (s, { t with opens := t.opens + 1, retry := true, pc := .load1 })
        else
          some (s, { t with opens := t.opens + 1, pc := .unwind (.openError e) })
  | .kick qc qs =>
    -- _, err = qs.Write([]byte(" ")); return &ruvchainSession{qc, qs}, err
    some (s, { t with pc := .unwind (.session qc qs o.error) })
  | .unwind r =>
    -- the deferred calls, last deferred first
    match t.defers with
    | [] => some (s, { t with pc := .done r })
    | f :: rest => some (f.run t.host s, { t with defers := rest })
  | .done _ => none

/-- One atomic step of `connectionAcceptLoop` once `t.listener.Accept` has
returned a connection (`none` while it waits in `Accept` or after it
returned). -/
def connectionAcceptLoop (s : State) : Option State :=
  match s.acceptor with
  | .accept => none
  | .evict qc =>
    -- if eqc, ok := t.sessions.LoadAndDelete(host); ok
    match s.sessions.LoadAndDelete qc.RemoteAddrString with
    | (some eqc, m) => some { s with sessions := m, acceptor := .closeOld qc eqc }
    | (none, m) => some { s with sessions := m, acceptor := .install qc }
  | .closeOld qc eqc =>
    -- _ = eqc.CloseWithError(0, "Connection replaced")
    some { s with closed := (eqc, "Connection replaced") :: s.closed, acceptor := .install qc }
  | .install qc =>
    -- t.sessions.Store(host, qc)
    some { s with sessions := s.sessions.Store qc.RemoteAddrString qc, acceptor := .takeTicket qc }
  | .takeTicket qc =>
    -- if dial, ok := t.dials.LoadAndDelete(host); ok
    match s.dials.LoadAndDelete qc.RemoteAddrString with
    | (some dial, m) => some { s with dials := m, acceptor := .cancel qc dial }
    | (none, m) => some { s with dials := m, acceptor := .spawn qc }
  | .cancel qc dial =>
    -- dial.CancelFunc()
    some { s with cancelled := dial :: s.cancelled, acceptor := .spawn qc }
  | .spawn qc =>
    -- go t.streamAcceptLoop(qc)
    some { s with loops := s.loops ++ [{ qc := qc, pc := .acceptStream }], acceptor := .accept }
  | .stopped => none

/-- One atomic step of a `streamAcceptLoop(qc)` goroutine `l`; `o` is the
result of `qc.AcceptStream`. The send on `t.incoming` blocks while the
channel is full. -/
def streamAcceptLoop (s : State) (l : StreamLoop) (o : Outcome) : Option (State × StreamLoop) :=
  match l.pc with
  | .acceptStream =>
    -- qs, err := qc.AcceptStream(context.Background()); if err != nil break
    match o with
    | .ok => some ({ s with nextStream := s.nextStream + 1 }, { l with pc := .push s.nextStream })
    | .err _ => some (s, { l with pc := .delete })
  | .push qs =>
    -- t.incoming <- &ruvchainSession{qc, qs}
    if s.incoming.length < 1 then
      some ({ s with incoming := s.incoming ++ [(l.qc, qs)] }, { l with pc := .acceptStream })
    else none
  | .delete =>
    -- defer t.sessions.Delete(host)
    some ({ s with sessions := s.sessions.Delete l.qc.RemoteAddrString }, { l with pc := .close })
  | .close =>
    -- defer qc.CloseWithError(0, "Timed out")
    some ({ s with closed := (l.qc, "Timed out") :: s.closed }, { l with pc := .finished })
  | .finished => none

/-- What can happen next: a caller invokes `Dial(host)`; the `i`-th `Dial`
call takes a step; the deadline of its timeout context passes;
`listener.Accept` returns a connection from `remote`, or an error; the
accept loop takes a step; the `j`-th stream loop takes a step;
`ruvchainListener.Accept` receives from `incoming`. -/
inductive Event where
  | call (host : String)
  | dial (i : Nat) (o : Outcome)
  | deadline (i : Nat)
  | inbound (remote : List Nat)
  | acceptFailed
  | acceptor
  | stream (j : Nat) (o : Outcome)
  | recv
  deriving DecidableEq, Repr

/-- The transition function of the system; `none` when the event is not
enabled. -/
def step (s : State) : Event → Option State
  | .call host => some { s with calls := s.calls ++ [DialCall.new s.calls.length host] }
  | .dial i o =>
    match s.calls[i]? with
    | none => none
    | some t =>
      match Dial s t o with
      | none => none
      | some (s1, t1) => some { s1 with calls := s1.calls.set i t1 }
  | .deadline i =>
    match s.calls[i]? with
    | none => none
    | some _ => some { s with cancelled := .timeout i :: s.cancelled }
  | .inbound remote =>
    -- qc, err := t.listener.Accept(context.TODO())
    match s.acceptor with
    | .accept =>
      some { s with nextConn := s.nextConn + 1,
                    acceptor := .evict { id := s.nextConn, remote := remote } }
    | _ => none
  | .acceptFailed =>
    match s.acceptor with
    | .accept => some { s with acceptor := .stopped }
    | _ => none
  | .acceptor => connectionAcceptLoop s
  | .stream j o =>
    match s.loops[j]? with
    | none => none
    | some l =>
      match streamAcceptLoop s l o with
      | none => none
      | some (s1, l1) => some { s1 with loops := s1.loops.set j l1 }
  | .recv =>
    -- return <-t.incoming, nil
    match s.incoming with
    | [] => none
    | _ :: rest => some { s with incoming := rest }

/-- Running a list of events from a state. -/
def exec (s : State) : List Event → Option State
  | [] => some s
  | e :: es =>
    match step s e with
    | none => none
    | some s1 => exec s1 es

/-- The states the transport can reach from its initial state. -/
def Reachable (s : State) : Prop := ∃ es, exec State.init es = some s

/-- A `Dial` call taking several steps, the state it finds at each step being
given (what the other goroutines made of it in between) together with the
result of the external call of that step. -/
def dialRun (t : DialCall) : List (State × Outcome) → Option DialCall
  | [] => some t
  | (s, o) :: rest =>
    match Dial s t o with
    | none => none
    | some (_, t1) => dialRun t1 rest

/-- The number of `Dial` calls that are inside `transport.Dial` for an
address. -/
def connecting (s : State) (addr : List Nat) : Nat :=
  (s.calls.filter (fun t => match t.pc with
    | .connect _ a => decide (a = addr)
    | _ => false)).length

/-! ## Invariants and concrete scenarios -/

/-- The bound on the `OpenStreamSync` calls of a `Dial` call at each program
point: none before the first attempt, one before the second. -/
def openBound (t : DialCall) : Prop :=
  match t.pc with
  | .kick _ _ => t.opens ≤ (if t.retry then 2 else 1)
  | .unwind _ => t.opens ≤ (if t.retry then 2 else 1)
  | .done _ => t.opens ≤ (if t.retry then 2 else 1)
  | _ => t.opens = (if t.retry then 1 else 0)

/-- Every call of a state has the history of a `Dial` call: it started as
`DialCall.new` and took its steps in some states. -/
def CallsRun (s : State) : Prop :=
  ∀ i t, s.calls[i]? = some t → ∃ host envs, dialRun (DialCall.new i host) envs = some t

/-- Connections in hand have identities below the counter of fresh ones: the
registered connections, the connection a `Dial` call is about to register,
and the connection the accept loop is about to register. -/
def Fresh (s : State) : Prop :=
  (∀ k c, s.sessions k = some c → c.id < s.nextConn) ∧
  (∀ t ∈ s.calls, ∀ c, t.pc = .storeConn c → c.id < s.nextConn) ∧
  (∀ c, (s.acceptor = .evict c ∨ (∃ e, s.acceptor = .closeOld c e) ∨ s.acceptor = .install c) →
    c.id < s.nextConn)

/-- The connection the accept loop has accepted and not yet registered is
none of the registered connections and none of the connections a `Dial`
call is about to register. -/
def Distinct (s : State) : Prop :=
  ∀ c, (s.acceptor = .evict c ∨ (∃ e, s.acceptor = .closeOld c e) ∨ s.acceptor = .install c) →
    (∀ k c1, s.sessions k = some c1 → c1.id ≠ c.id) ∧
    (∀ t ∈ s.calls, ∀ c1, t.pc = .storeConn c1 → c1.id ≠ c.id)

/-- The overlay address `ab 00 ... 00` (32 bytes). -/
def peerAddr : List Nat := copyAddr [171]

/-- Its string form, `ab` followed by 62 zeros. -/
def peerHost : String := EncodeToString peerAddr

/-- The same address spelled with upper-case digits, `AB` followed by 62
zeros. -/
def peerHostUpper : String := String.mk ('A' :: 'B' :: List.replicate 62 '0')

/-- Two `Dial("ab")` calls started on a fresh transport, their steps taken in
turn: both look up the registry and the tickets before either stores a
ticket. -/
def dedupRace : List Event :=
  [.call "ab", .call "ab",
   .dial 0 .ok, .dial 1 .ok,   -- t.sessions.Load: no connection
   .dial 0 .ok, .dial 1 .ok,   -- t.dials.Load: no ticket
   .dial 0 .ok, .dial 1 .ok,   -- t.sessions.Load again: no connection
   .dial 0 .ok, .dial 1 .ok,   -- t.dials.Store
   .dial 0 .ok, .dial 1 .ok]   -- hex.DecodeString, transport.Dial entered

/-- Two `Dial("ab")` calls, the second waiting on the ticket of the first;
the connect of the first fails with error 7, the second then connects by
itself and succeeds. -/
def dedupOwnerFails : List Event :=
  [.call "ab", .call "ab",
   .dial 0 .ok, .dial 0 .ok, .dial 0 .ok, .dial 0 .ok,   -- call 0 stores its ticket
   .dial 1 .ok, .dial 1 .ok,                             -- call 1 finds it and waits
   .dial 0 .ok, .dial 0 (.err 7),                        -- transport.Dial of call 0 fails
   .dial 0 .ok, .dial 0 .ok, .dial 0 .ok, .dial 0 .ok,   -- deferred calls, return
   .dial 1 .ok, .dial 1 .ok, .dial 1 .ok, .dial 1 .ok,   -- released: load, ticket, decode
   .dial 1 .ok, .dial 1 .ok,                             -- transport.Dial succeeds, Store
   .dial 1 .ok, .dial 1 .ok,                             -- OpenStreamSync, Write
   .dial 1 .ok, .dial 1 .ok, .dial 1 .ok, .dial 1 .ok]   -- deferred calls, return

/-- A `Dial("ab")` call waits on the ticket of another whose connect fails
with error 7; no inbound connection arrives. -/
def waiterRedials : List Event :=
  [.call "ab", .call "ab",
   .dial 0 .ok, .dial 0 .ok, .dial 0 .ok, .dial 0 .ok,   -- call 0 stores its ticket
   .dial 1 .ok, .dial 1 .ok,                             -- call 1 finds it and waits
   .dial 0 .ok, .dial 0 (.err 7),                        -- transport.Dial of call 0 fails
   .dial 0 .ok, .dial 0 .ok, .dial 0 .ok, .dial 0 .ok,   -- deferred calls, return
   .dial 1 .ok, .dial 1 .ok,                             -- released; no connection registered
   .dial 1 .ok, .dial 1 .ok]                             -- t.dials.Store, transport.Dial entered

/-- A `Dial` call over a registered connection whose kick write fails with
error 5 on the first attempt. -/
def kickFails : List Event :=
  [.inbound peerAddr, .acceptor, .acceptor, .acceptor, .acceptor,   -- a connection of the peer
   .call peerHost,
   .dial 0 .ok,         -- t.sessions.Load finds it
   .dial 0 .ok,         -- OpenStreamSync succeeds
   .dial 0 (.err 5),    -- Write fails with error 5
   .dial 0 .ok, .dial 0 .ok]   -- deferred cancel, return

/-- `Dial("AB")`, then `Dial("ab")`, then an inbound connection, all three
for the overlay address `peerAddr`. -/
def twoKeys : List Event :=
  [.call "AB", .dial 0 .ok, .dial 0 .ok, .dial 0 .ok, .dial 0 .ok, .dial 0 .ok,
   .dial 0 .ok, .dial 0 .ok,    -- transport.Dial succeeds, t.sessions.Store("AB", qc)
   .call "ab", .dial 1 .ok, .dial 1 .ok, .dial 1 .ok, .dial 1 .ok, .dial 1 .ok,
   .dial 1 .ok, .dial 1 .ok,    -- transport.Dial succeeds, t.sessions.Store("ab", qc)
   .inbound peerAddr, .acceptor, .acceptor]   -- t.sessions.Store(host, qc) of the accept loop

/-- An inbound connection of the peer arrives while a `Dial` call to it is
inside `transport.Dial`. -/
def inboundDuringConnect : List Event :=
  [.call peerHost,
   .dial 0 .ok, .dial 0 .ok, .dial 0 .ok,   -- no connection, no ticket, no connection
   .dial 0 .ok,                             -- t.dials.Store(host, {dialctx, dialcancel})
   .dial 0 .ok,                             -- transport.Dial(dialctx, ...) entered
   .inbound peerAddr,                       -- listener.Accept returns a connection of the peer
   .acceptor, .acceptor,                    -- LoadAndDelete, Store on t.sessions
   .acceptor, .acceptor]                    -- t.dials.LoadAndDelete, dial.CancelFunc()

/-- A connection of the peer is replaced by a second one; the stream loop of
the first then ends. -/
def replacedLoopEnds : List Event :=
  [.inbound peerAddr, .acceptor, .acceptor, .acceptor, .acceptor,   -- connection 0 registered
   .inbound peerAddr, .acceptor,   -- connection 1: LoadAndDelete finds connection 0
   .acceptor,                      -- connection 0 closed, "Connection replaced"
   .acceptor, .acceptor, .acceptor,   -- connection 1 registered, its loop started
   .stream 0 (.err 0),             -- AcceptStream of connection 0 fails
   .stream 0 .ok]                  -- deferred t.sessions.Delete(host)

/-- A `Dial` call registers a connection of the peer under the upper-case
spelling of its address; then an inbound connection of the peer is
accepted. -/
def replaceOtherKey : List Event :=
  [.call peerHostUpper,
   .dial 0 .ok, .dial 0 .ok, .dial 0 .ok, .dial 0 .ok, .dial 0 .ok,
   .dial 0 .ok, .dial 0 .ok,   -- transport.Dial succeeds, t.sessions.Store(host, qc)
   .inbound peerAddr,          -- listener.Accept returns a connection of the peer
   .acceptor, .acceptor,       -- LoadAndDelete finds nothing, Store on t.sessions
   .acceptor, .acceptor]       -- t.dials.LoadAndDelete finds nothing, stream loop started

/-- A `Dial` call over a registered connection: the first `OpenStreamSync`
fails with error 3, the second succeeds, the kick write then fails with
error 9. -/
def retryKickFails : List Event :=
  [.inbound peerAddr, .acceptor, .acceptor, .acceptor, .acceptor,   -- a connection of the peer
   .call peerHost,
   .dial 0 .ok, .dial 0 (.err 3),   -- Load finds it, OpenStreamSync fails
   .dial 0 .ok, .dial 0 .ok,        -- retry: Load finds it, OpenStreamSync succeeds
   .dial 0 (.err 9),                -- Write fails with error 9
   .dial 0 .ok, .dial 0 .ok]        -- deferred cancel, return

/-- Call 1 waits on the ticket of call 0, both for the upper-case spelling
of the address of the peer; then an inbound connection of the peer is
accepted and handled by the accept loop. -/
def waiterOtherKey : List Event :=
  [.call peerHostUpper, .call peerHostUpper,
   .dial 0 .ok, .dial 0 .ok, .dial 0 .ok, .dial 0 .ok, .dial 0 .ok,   -- call 0 in transport.Dial
   .dial 1 .ok, .dial 1 .ok,                                          -- call 1 waits
   .inbound peerAddr, .acceptor, .acceptor, .acceptor, .acceptor]

/-- Two connections of the peer come in one after the other and the loop of
the first ends, which leaves no connection registered while the loop of the
second still runs. Call 1 then waits on the ticket of call 0. A third
connection of the peer comes in and releases call 1; before call 1 looks
the registry up again, the loop of the second connection ends. -/
def staleLoopDelete : List Event :=
  [.inbound peerAddr, .acceptor, .acceptor, .acceptor, .acceptor,   -- connection 0
   .inbound peerAddr, .acceptor, .acceptor, .acceptor, .acceptor, .acceptor,   -- connection 1
   .stream 0 (.err 0), .stream 0 .ok, .stream 0 .ok,   -- loop 0 ends: Delete, close
   .call peerHost, .call peerHost,
   .dial 0 .ok, .dial 0 .ok, .dial 0 .ok, .dial 0 .ok, .dial 0 .ok,   -- call 0 in transport.Dial
   .dial 1 .ok, .dial 1 .ok,                                          -- call 1 waits
   .inbound peerAddr, .acceptor, .acceptor,   -- connection 2: LoadAndDelete, Store
   .acceptor, .acceptor,                      -- t.dials.LoadAndDelete, dial.CancelFunc()
   .stream 1 (.err 0), .stream 1 .ok,         -- loop 1: AcceptStream fails, Delete
   .dial 1 .ok, .dial 1 .ok,                  -- call 1 released, Load finds nothing
   .dial 1 .ok, .dial 1 .ok]                  -- t.dials.Store, transport.Dial entered

/-- The state after the events of a scenario (the initial state if they
cannot all happen). -/
def stateAfter (es : List Event) : State := (exec State.init es).getD State.init

/-- A transport with one connection of the peer registered and its stream
loop running. -/
def registeredState : State := stateAfter (kickFails.take 5)

/-- A transport on which call 0 holds the ticket for the peer and call 1
waits on it. -/
def waitingState : State :=
  stateAfter [.call peerHost, .call peerHost, .dial 0 .ok, .dial 0 .ok, .dial 0 .ok, .dial 0 .ok,
    .dial 1 .ok, .dial 1 .ok]

/-- A transport on which call 0 is inside `transport.Dial` and the accept
loop has registered an inbound connection of the same peer. -/
def connectingState : State := stateAfter (inboundDuringConnect.take 9)

/-! ## Lemmas on `encoding/hex` -/

theorem fromHexChar_hexDigit (n : Nat) (h : n < 16) : fromHexChar (hexDigit n) = some n := by
  interval_cases n <;> decide

theorem fromHexChar_lt (c : Char) (a : Nat) (h : fromHexChar c = some a) : a < 16 := by
  unfold fromHexChar at h
  have h9 : ∀ d : Char, c ≤ d ↔ c.toNat ≤ d.toNat := fun d => Iff.rfl
  split_ifs at h with h1 h2 h3
  · obtain ⟨_, hb⟩ := h1
    have := (h9 _).1 hb
    simp at h
    have e : ('9' : Char).toNat = 57 := by decide
    have e0 : ('0' : Char).toNat = 48 := by decide
    omega
  · obtain ⟨_, hb⟩ := h2
    have := (h9 _).1 hb
    simp at h
    have e : ('f' : Char).toNat = 102 := by decide
    have e0 : ('a' : Char).toNat = 97 := by decide
    omega
  · obtain ⟨_, hb⟩ := h3
    have := (h9 _).1 hb
    simp at h
    have e : ('F' : Char).toNat = 70 := by decide
    have e0 : ('A' : Char).toNat = 65 := by decide
    omega

theorem decodeChars_encodeChars (bs : List Nat) (h : ∀ b ∈ bs, b < 256) :
    decodeChars (encodeChars bs) = some bs := by
  induction bs with
  | nil => rfl
  | cons v rest ih =>
    have hv : v < 256 := h v (List.mem_cons_self _ _)
    have hr := ih (fun b hb => h b (List.mem_cons_of_mem _ hb))
    have h1 : fromHexChar (hexDigit (v % 256 / 16)) = some (v % 256 / 16) :=
      fromHexChar_hexDigit _ (by omega)
    have h2 : fromHexChar (hexDigit (v % 16)) = some (v % 16) :=
      fromHexChar_hexDigit _ (by omega)
    simp only [encodeChars, decodeChars, h1, h2, hr]
    congr 2
    omega

theorem decodeChars_lt : ∀ (cs : List Char) (bs : List Nat), decodeChars cs = some bs →
    ∀ b ∈ bs, b < 256
  | [], bs, h => by
    simp [decodeChars] at h
    subst h
    simp
  | [_], bs, h => by simp [decodeChars] at h
  | p :: q :: rest, bs, h => by
    unfold decodeChars at h
    cases hp : fromHexChar p with
    | none => simp [hp] at h
    | some a =>
      cases hq : fromHexChar q with
      | none => simp [hp, hq] at h
      | some b =>
        cases hr : decodeChars rest with
        | none => simp [hp, hq, hr] at h
        | some r =>
          simp [hp, hq, hr] at h
          subst h
          intro x hx
          rcases List.mem_cons.1 hx with rfl | hx
          · have := fromHexChar_lt p a hp
            have := fromHexChar_lt q b hq
            omega
          · exact decodeChars_lt rest r hr x hx

theorem DecodeString_EncodeToString (bs : List Nat) (h : ∀ b ∈ bs, b < 256) :
    DecodeString (EncodeToString bs) = some bs :=
  decodeChars_encodeChars bs h

theorem DecodeString_lt (s : String) (bs : List Nat) (h : DecodeString s = some bs) :
    ∀ b ∈ bs, b < 256 :=
  decodeChars_lt s.data bs h

/-! ## Frame lemmas: what a step leaves as it is -/

theorem Defer.run_calls (host : String) (s : State) (f : Defer) : (f.run host s).calls = s.calls := by
  cases f <;> rfl

theorem Defer.run_cancelled (host : String) (s : State) (f : Defer) (c : Ctx)
    (h : c ∈ s.cancelled) : c ∈ (f.run host s).cancelled := by
  cases f <;> simp [Defer.run, h]

theorem Dial_calls {s s1 : State} {t t1 : DialCall} {o : Outcome}
    (h : Dial s t o = some (s1, t1)) : s1.calls = s.calls := by
  unfold Dial at h
  repeat' split at h
  all_goals simp at h
  all_goals obtain ⟨rfl, rfl⟩ := h
  all_goals simp [Defer.run_calls]

theorem Dial_cancelled {s s1 : State} {t t1 : DialCall} {o : Outcome}
    (h : Dial s t o = some (s1, t1)) (c : Ctx) (hc : c ∈ s.cancelled) : c ∈ s1.cancelled := by
  unfold Dial at h
  repeat' split at h
  all_goals simp at h
  all_goals obtain ⟨rfl, rfl⟩ := h
  all_goals simp [Defer.run_cancelled, hc]

theorem streamAcceptLoop_frame {s s1 : State} {l l1 : StreamLoop} {o : Outcome}
    (h : streamAcceptLoop s l o = some (s1, l1)) :
    s1.calls = s.calls ∧ s1.cancelled = s.cancelled := by
  unfold streamAcceptLoop at h
  repeat' split at h
  all_goals simp at h
  all_goals obtain ⟨rfl, rfl⟩ := h
  all_goals simp

theorem connectionAcceptLoop_frame {s s1 : State} (h : connectionAcceptLoop s = some s1) :
    s1.calls = s.calls ∧ ∀ c ∈ s.cancelled, c ∈ s1.cancelled := by
  unfold connectionAcceptLoop at h
  repeat' split at h
  all_goals simp at h
  all_goals subst h
  all_goals simp
  all_goals intro c hc
  all_goals exact Or.inr hc

theorem step_cancelled {s s1 : State} {e : Event} (h : step s e = some s1) (c : Ctx)
    (hc : c ∈ s.cancelled) : c ∈ s1.cancelled := by
  cases e with
  | call host => simp [step] at h; subst h; exact hc
  | dial i o =>
    simp only [step] at h
    cases ht : s.calls[i]? with
    | none => simp [ht] at h
    | some t =>
      cases hd : Dial s t o with
      | none => simp [ht, hd] at h
      | some r =>
        obtain ⟨s2, t2⟩ := r
        simp [ht, hd] at h
        subst h
        exact Dial_cancelled hd c hc
  | deadline i =>
    simp only [step] at h
    cases ht : s.calls[i]? with
    | none => simp [ht] at h
    | some t => simp [ht] at h; subst h; simp [hc]
  | inbound remote =>
    simp only [step] at h
    split at h <;> simp at h
    subst h; exact hc
  | acceptFailed =>
    simp only [step] at h
    split at h <;> simp at h
    subst h; exact hc
  | acceptor => exact (connectionAcceptLoop_frame h).2 c hc
  | stream j o =>
    simp only [step] at h
    cases hl : s.loops[j]? with
    | none => simp [hl] at h
    | some l =>
      cases hd : streamAcceptLoop s l o with
      | none => simp [hl, hd] at h
      | some r =>
        obtain ⟨s2, l2⟩ := r
        simp [hl, hd] at h
        subst h
        simpa [(streamAcceptLoop_frame hd).2] using hc
  | recv =>
    simp only [step] at h
    split at h <;> simp at h
    subst h; exact hc

theorem exec_cancelled : ∀ (es : List Event) (s s1 : State), exec s es = some s1 →
    ∀ c ∈ s.cancelled, c ∈ s1.cancelled
  | [], s, s1, h, c, hc => by
    simp [exec] at h; subst h; exact hc
  | e :: es, s, s1, h, c, hc => by
    simp only [exec] at h
    cases hs : step s e with
    | none => simp [hs] at h
    | some s2 =>
      simp only [hs] at h
      exact exec_cancelled es s2 s1 h c (step_cancelled hs c hc)

theorem Ctx.isDone_mono {xs ys : List Ctx} (h : ∀ c ∈ xs, c ∈ ys) (d : Ctx)
    (hd : d.isDone xs = true) : d.isDone ys = true := by
  cases d with
  | timeout i =>
    simp only [Ctx.isDone, decide_eq_true_eq] at hd ⊢
    exact h _ hd
  | dial i k =>
    simp only [Ctx.isDone, Bool.or_eq_true, decide_eq_true_eq] at hd ⊢
    exact hd.imp (h _) (h _)

/-- A step of another thread leaves the local state of the `i`-th call as it is. -/
theorem step_call_other {s s1 : State} {e : Event} (h : step s e = some s1) (i : Nat)
    (t : DialCall) (ht : s.calls[i]? = some t) (hne : ∀ o, e ≠ .dial i o) :
    s1.calls[i]? = some t := by
  have hlt : i < s.calls.length := by
    by_contra hge
    rw [List.getElem?_eq_none (by omega)] at ht
    cases ht
  cases e with
  | call host =>
    simp [step] at h; subst h
    simp [List.getElem?_append_left hlt, ht]
  | dial j o =>
    simp only [step] at h
    cases htj : s.calls[j]? with
    | none => simp [htj] at h
    | some tj =>
      cases hd : Dial s tj o with
      | none => simp [htj, hd] at h
      | some r =>
        obtain ⟨s2, t2⟩ := r
        simp [htj, hd] at h
        subst h
        have hji : j ≠ i := fun hji => hne o (by rw [hji])
        simp [Dial_calls hd, List.getElem?_set_ne hji, ht]
  | deadline j =>
    simp only [step] at h
    cases htj : s.calls[j]? with
    | none => simp [htj] at h
    | some tj => simp [htj] at h; subst h; exact ht
  | inbound remote =>
    simp only [step] at h
    split at h <;> simp at h
    subst h; exact ht
  | acceptFailed =>
    simp only [step] at h
    split at h <;> simp at h
    subst h; exact ht
  | acceptor =>
    have := (connectionAcceptLoop_frame h).1
    rw [this]; exact ht
  | stream j o =>
    simp only [step] at h
    cases hl : s.loops[j]? with
    | none => simp [hl] at h
    | some l =>
      cases hd : streamAcceptLoop s l o with
      | none => simp [hl, hd] at h
      | some r =>
        obtain ⟨s2, l2⟩ := r
        simp [hl, hd] at h
        subst h
        simpa [(streamAcceptLoop_frame hd).1] using ht
  | recv =>
    simp only [step] at h
    split at h <;> simp at h
    subst h; exact ht

/-! ## The run of one call inside an interleaving -/

theorem dialRun_append : ∀ (xs ys : List (State × Outcome)) (t : DialCall),
    dialRun t (xs ++ ys) = (dialRun t xs).bind (fun t1 => dialRun t1 ys)
  | [], ys, t => by simp [dialRun]
  | (s, o) :: xs, ys, t => by
    simp only [List.cons_append, dialRun]
    cases hd : Dial s t o with
    | none => simp
    | some r => exact dialRun_append xs ys r.2

/-- In every interleaving the local state of a `Dial` call evolves by
`dialRun`, for the states the call finds at its own steps. -/
theorem exec_dialRun : ∀ (es : List Event) (s s1 : State) (i : Nat) (t : DialCall),
    exec s es = some s1 → s.calls[i]? = some t →
    ∃ envs t1, s1.calls[i]? = some t1 ∧ dialRun t envs = some t1
  | [], s, s1, i, t, h, ht => by
    simp [exec] at h; subst h
    exact ⟨[], t, ht, rfl⟩
  | e :: es, s, s1, i, t, h, ht => by
    simp only [exec] at h
    cases hs : step s e with
    | none => simp [hs] at h
    | some s2 =>
      simp only [hs] at h
      by_cases hne : ∀ o, e ≠ .dial i o
      · exact exec_dialRun es s2 s1 i t h (step_call_other hs i t ht hne)
      · push_neg at hne
        obtain ⟨o, rfl⟩ := hne
        have hlt : i < s.calls.length := by
          by_contra hge
          rw [List.getElem?_eq_none (by omega)] at ht
          cases ht
        simp only [step, ht] at hs
        cases hd : Dial s t o with
        | none => simp [hd] at hs
        | some r =>
          obtain ⟨s3, t3⟩ := r
          simp [hd] at hs
          subst hs
          have h3 : (s3.calls.set i t3)[i]? = some t3 := by
            simp [Dial_calls hd, hlt]
          obtain ⟨envs, t1, h1, h2⟩ := exec_dialRun es _ s1 i t3 h h3
          exact ⟨(s, o) :: envs, t1, h1, by simp [dialRun, hd, h2]⟩

theorem step_calls_eq {s s1 : State} {e : Event} (h : step s e = some s1)
    (hc : ∀ host, e ≠ .call host) (hd : ∀ i o, e ≠ .dial i o) : s1.calls = s.calls := by
  cases e with
  | call host => exact absurd rfl (hc host)
  | dial i o => exact absurd rfl (hd i o)
  | deadline j =>
    simp only [step] at h
    cases htj : s.calls[j]? with
    | none => simp [htj] at h
    | some tj => simp [htj] at h; subst h; rfl
  | inbound remote =>
    simp only [step] at h
    split at h <;> simp at h
    subst h; rfl
  | acceptFailed =>
    simp only [step] at h
    split at h <;> simp at h
    subst h; rfl
  | acceptor => exact (connectionAcceptLoop_frame h).1
  | stream j o =>
    simp only [step] at h
    cases hl : s.loops[j]? with
    | none => simp [hl] at h
    | some l =>
      cases hd : streamAcceptLoop s l o with
      | none => simp [hl, hd] at h
      | some r =>
        obtain ⟨s2, l2⟩ := r
        simp [hl, hd] at h
        subst h
        simpa using (streamAcceptLoop_frame hd).1
  | recv =>
    simp only [step] at h
    split at h <;> simp at h
    subst h; rfl

theorem step_CallsRun {s s1 : State} {e : Event} (h : step s e = some s1) (hp : CallsRun s) :
    CallsRun s1 := by
  intro i t ht
  by_cases hc : ∃ host, e = .call host
  · obtain ⟨host, rfl⟩ := hc
    simp [step] at h; subst h
    by_cases hlt : i < s.calls.length
    · rw [List.getElem?_append_left hlt] at ht
      exact hp i t ht
    · have hge : s.calls.length ≤ i := by omega
      rw [List.getElem?_append_right hge] at ht
      have hi : i - s.calls.length = 0 := by
        by_contra hne
        rw [List.getElem?_eq_none (by simp; omega)] at ht
        cases ht
      rw [hi] at ht
      simp at ht
      have : i = s.calls.length := by omega
      subst this
      exact ⟨host, [], by simp [dialRun, ht]⟩
  · by_cases hd : ∃ j o, e = .dial j o
    · obtain ⟨j, o, rfl⟩ := hd
      simp only [step] at h
      cases htj : s.calls[j]? with
      | none => simp [htj] at h
      | some tj =>
        cases hdl : Dial s tj o with
        | none => simp [htj, hdl] at h
        | some r =>
          obtain ⟨s2, t2⟩ := r
          simp [htj, hdl] at h
          subst h
          have hlt : j < s.calls.length := by
            by_contra hge
            rw [List.getElem?_eq_none (by omega)] at htj
            cases htj
          by_cases hji : j = i
          · subst hji
            simp [Dial_calls hdl, hlt] at ht
            subst ht
            obtain ⟨host, envs, hr⟩ := hp j tj htj
            exact ⟨host, envs ++ [(s, o)], by simp [dialRun_append, hr, dialRun, hdl]⟩
          · simp [Dial_calls hdl, List.getElem?_set_ne hji] at ht
            exact hp i t ht
    · push_neg at hc hd
      rw [step_calls_eq h hc hd] at ht
      exact hp i t ht

theorem exec_CallsRun : ∀ (es : List Event) (s s1 : State), exec s es = some s1 →
    CallsRun s → CallsRun s1
  | [], s, s1, h, hp => by
    simp [exec] at h; subst h; exact hp
  | e :: es, s, s1, h, hp => by
    simp only [exec] at h
    cases hs : step s e with
    | none => simp [hs] at h
    | some s2 =>
      simp only [hs] at h
      exact exec_CallsRun es s2 s1 h (step_CallsRun hs hp)

theorem Reachable.callsRun {s : State} (h : Reachable s) : CallsRun s := by
  obtain ⟨es, he⟩ := h
  refine exec_CallsRun es State.init s he ?_
  intro i t ht
  simp [State.init] at ht

/-! ## Returning from `Dial` -/

theorem dialRun_unwind : ∀ (envs : List (State × Outcome)) (t t1 : DialCall) (r : DialResult),
    (t.pc = .unwind r ∨ t.pc = .done r) → dialRun t envs = some t1 →
    (t1.pc = .unwind r ∨ t1.pc = .done r) ∧ t1.opens = t.opens ∧ t1.connects = t.connects ∧
      t1.retry = t.retry
  | [], t, t1, r, hpc, h => by
    simp [dialRun] at h; subst h; exact ⟨hpc, rfl, rfl, rfl⟩
  | (s, o) :: rest, t, t1, r, hpc, h => by
    simp only [dialRun] at h
    rcases hpc with hpc | hpc
    · cases hdf : t.defers with
      | nil =>
        have hd : Dial s t o = some (s, { t with pc := .done r }) := by simp [Dial, hpc, hdf]
        rw [hd] at h
        exact dialRun_unwind rest { t with pc := .done r } t1 r (Or.inr rfl) h
      | cons f fs =>
        have hd : Dial s t o = some (f.run t.host s, { t with defers := fs }) := by
          simp [Dial, hpc, hdf]
        rw [hd] at h
        exact dialRun_unwind rest { t with defers := fs } t1 r (Or.inl hpc) h
    · simp [Dial, hpc] at h

theorem dialRun_returns : ∀ (envs : List (State × Outcome)) (t : DialCall) (r : DialResult),
    t.pc = .unwind r → envs.length = t.defers.length + 1 →
    dialRun t envs = some { t with defers := [], pc := .done r }
  | [], t, r, _, hlen => by simp at hlen
  | (s, o) :: rest, t, r, hpc, hlen => by
    simp only [dialRun]
    cases hdf : t.defers with
    | nil =>
      have hd : Dial s t o = some (s, { t with pc := .done r }) := by simp [Dial, hpc, hdf]
      have hrest : rest = [] := by
        simp [hdf] at hlen
        exact hlen
      rw [hd, hrest]
      simp [dialRun, hdf]
    | cons f fs =>
      have hd : Dial s t o = some (f.run t.host s, { t with defers := fs }) := by
        simp [Dial, hpc, hdf]
      rw [hd]
      have hl : rest.length = fs.length + 1 := by
        simp [hdf] at hlen
        exact hlen
      exact dialRun_returns rest { t with defers := fs } r hpc hl

theorem copyAddr_of_length (addr : List Nat) (h : addr.length = 32) : copyAddr addr = addr := by
  unfold copyAddr
  rw [List.take_append_of_le_length (by omega), List.take_of_length_le (by omega)]

/-! ## At most two stream-open attempts -/

theorem openBound_le (t : DialCall) (h : openBound t) : t.opens ≤ 2 := by
  unfold openBound at h
  split at h <;> split at h <;> omega

theorem Dial_openBound {s s1 : State} {t t1 : DialCall} {o : Outcome}
    (h : Dial s t o = some (s1, t1)) (hb : openBound t) : openBound t1 := by
  unfold Dial at h
  repeat' split at h
  all_goals simp at h
  all_goals obtain ⟨rfl, rfl⟩ := h
  all_goals (cases hr : t.retry <;> simp_all [openBound])

theorem dialRun_openBound : ∀ (envs : List (State × Outcome)) (t t1 : DialCall),
    dialRun t envs = some t1 → openBound t → openBound t1
  | [], t, t1, h, hb => by
    simp [dialRun] at h; subst h; exact hb
  | (s, o) :: rest, t, t1, h, hb => by
    simp only [dialRun] at h
    cases hd : Dial s t o with
    | none => simp [hd] at h
    | some r =>
      obtain ⟨s2, t2⟩ := r
      simp only [hd] at h
      exact dialRun_openBound rest t2 t1 h (Dial_openBound hd hb)

/-! ## Fresh connection identities -/

theorem Defer.run_frame (host : String) (s : State) (f : Defer) :
    (f.run host s).sessions = s.sessions ∧ (f.run host s).nextConn = s.nextConn ∧
    (f.run host s).acceptor = s.acceptor := by
  cases f <;> simp [Defer.run]

theorem Dial_fresh {s s1 : State} {t t1 : DialCall} {o : Outcome}
    (h : Dial s t o = some (s1, t1)) (hs : ∀ k c, s.sessions k = some c → c.id < s.nextConn)
    (ht : ∀ c, t.pc = .storeConn c → c.id < s.nextConn) :
    (∀ k c, s1.sessions k = some c → c.id < s1.nextConn) ∧
    (∀ c, t1.pc = .storeConn c → c.id < s1.nextConn) ∧
    s.nextConn ≤ s1.nextConn ∧ s1.acceptor = s.acceptor := by
  unfold Dial at h
  repeat' split at h
  all_goals simp at h
  all_goals obtain ⟨rfl, rfl⟩ := h
  all_goals refine ⟨?_, ?_, ?_, ?_⟩
  all_goals first
    | exact hs
    | rfl
    | exact Nat.le_refl _
    | (intro c hc; solve | simp_all)
    | (simp; done)
    | (simp only [(Defer.run_frame _ _ _).1, (Defer.run_frame _ _ _).2.1,
        (Defer.run_frame _ _ _).2.2]; first | exact hs | exact Nat.le_refl _ | exact ht | rfl)
    | (intro k c hc; exact Nat.lt_succ_of_lt (hs k c hc))
    | exact (Defer.run_frame _ _ _).2.2
    | skip
  · rename_i qc hpc
    intro k c hc
    simp only [SyncMap.Store] at hc
    split at hc
    · cases hc; exact ht _ hpc
    · exact hs k c hc

theorem step_Fresh {s s1 : State} {e : Event} (h : step s e = some s1) (hf : Fresh s) :
    Fresh s1 := by
  obtain ⟨hs, hc, ha⟩ := hf
  cases e with
  | call host =>
    simp [step] at h; subst h
    refine ⟨hs, ?_, ha⟩
    intro t ht c hpc
    rcases List.mem_append.1 ht with ht | ht
    · exact hc t ht c hpc
    · simp [DialCall.new] at ht
      subst ht
      cases hpc
  | dial i o =>
    simp only [step] at h
    cases ht : s.calls[i]? with
    | none => simp [ht] at h
    | some t =>
      cases hd : Dial s t o with
      | none => simp [ht, hd] at h
      | some r =>
        obtain ⟨s2, t2⟩ := r
        simp [ht, hd] at h
        subst h
        have hmem : t ∈ s.calls := List.getElem?_mem ht
        obtain ⟨h1, h2, h3, h4⟩ := Dial_fresh hd hs (hc t hmem)
        refine ⟨h1, ?_, ?_⟩
        · intro t' ht' c hpc
          rcases List.mem_or_eq_of_mem_set ht' with hm | rfl
          · rw [Dial_calls hd] at hm
            exact Nat.lt_of_lt_of_le (hc t' hm c hpc) h3
          · exact h2 c hpc
        · intro c hcase
          simp only [h4] at hcase
          exact Nat.lt_of_lt_of_le (ha c hcase) h3
  | deadline i =>
    simp only [step] at h
    cases ht : s.calls[i]? with
    | none => simp [ht] at h
    | some t => simp [ht] at h; subst h; exact ⟨hs, hc, ha⟩
  | inbound remote =>
    simp only [step] at h
    split at h <;> simp at h
    subst h
    refine ⟨fun k c hk => Nat.lt_succ_of_lt (hs k c hk),
      fun t ht c hpc => Nat.lt_succ_of_lt (hc t ht c hpc), ?_⟩
    intro c hcase
    simp at hcase
    subst hcase
    simp
  | acceptFailed =>
    simp only [step] at h
    split at h <;> simp at h
    subst h
    refine ⟨hs, hc, ?_⟩
    intro c hcase
    simp at hcase
  | acceptor =>
    simp only [step] at h
    have hdel : ∀ key k c, s.sessions.Delete key k = some c → c.id < s.nextConn := by
      intro key k c hk
      simp only [SyncMap.Delete] at hk
      split at hk
      · cases hk
      · exact hs k c hk
    cases hacc : s.acceptor with
    | accept => simp [connectionAcceptLoop, hacc] at h
    | stopped => simp [connectionAcceptLoop, hacc] at h
    | evict qc =>
      have hq : qc.id < s.nextConn := ha qc (Or.inl hacc)
      simp only [connectionAcceptLoop, hacc, SyncMap.LoadAndDelete] at h
      cases hld : s.sessions qc.RemoteAddrString with
      | none =>
        simp [hld] at h; subst h
        refine ⟨hdel _, hc, ?_⟩
        intro c hcase
        simp at hcase
        subst hcase
        exact hq
      | some eqc =>
        simp [hld] at h; subst h
        refine ⟨hdel _, hc, ?_⟩
        intro c hcase
        simp at hcase
        subst hcase
        exact hq
    | closeOld qc eqc =>
      have hq : qc.id < s.nextConn := ha qc (Or.inr (Or.inl ⟨eqc, hacc⟩))
      simp [connectionAcceptLoop, hacc] at h; subst h
      refine ⟨hs, hc, ?_⟩
      intro c hcase
      simp at hcase
      subst hcase
      exact hq
    | install qc =>
      have hq : qc.id < s.nextConn := ha qc (Or.inr (Or.inr hacc))
      simp [connectionAcceptLoop, hacc] at h; subst h
      refine ⟨?_, hc, ?_⟩
      · intro k c hk
        simp only [SyncMap.Store] at hk
        split at hk
        · cases hk; exact hq
        · exact hs k c hk
      · intro c hcase
        simp at hcase
    | takeTicket qc =>
      simp only [connectionAcceptLoop, hacc, SyncMap.LoadAndDelete] at h
      cases hld : s.dials qc.RemoteAddrString with
      | none =>
        simp [hld] at h; subst h
        refine ⟨hs, hc, ?_⟩
        intro c hcase
        simp at hcase
      | some d =>
        simp [hld] at h; subst h
        refine ⟨hs, hc, ?_⟩
        intro c hcase
        simp at hcase
    | cancel qc d =>
      simp [connectionAcceptLoop, hacc] at h; subst h
      refine ⟨hs, hc, ?_⟩
      intro c hcase
      simp at hcase
    | spawn qc =>
      simp [connectionAcceptLoop, hacc] at h; subst h
      refine ⟨hs, hc, ?_⟩
      intro c hcase
      simp at hcase
  | stream j o =>
    simp only [step] at h
    cases hl : s.loops[j]? with
    | none => simp [hl] at h
    | some l =>
      cases hd : streamAcceptLoop s l o with
      | none => simp [hl, hd] at h
      | some r =>
        obtain ⟨s2, l2⟩ := r
        simp [hl, hd] at h
        subst h
        unfold streamAcceptLoop at hd
        repeat' split at hd
        all_goals simp at hd
        all_goals obtain ⟨rfl, rfl⟩ := hd
        all_goals refine ⟨?_, hc, ha⟩
        all_goals first
          | exact hs
          | skip
        intro k c hk
        simp only [SyncMap.Delete] at hk
        split at hk
        · cases hk
        · exact hs k c hk
  | recv =>
    simp only [step] at h
    split at h <;> simp at h
    subst h; exact ⟨hs, hc, ha⟩

theorem exec_Fresh : ∀ (es : List Event) (s s1 : State), exec s es = some s1 →
    Fresh s → Fresh s1
  | [], s, s1, h, hp => by
    simp [exec] at h; subst h; exact hp
  | e :: es, s, s1, h, hp => by
    simp only [exec] at h
    cases hs : step s e with
    | none => simp [hs] at h
    | some s2 =>
      simp only [hs] at h
      exact exec_Fresh es s2 s1 h (step_Fresh hs hp)

theorem Reachable.fresh {s : State} (h : Reachable s) : Fresh s := by
  obtain ⟨es, he⟩ := h
  refine exec_Fresh es State.init s he ⟨?_, ?_, ?_⟩
  · intro k c hk; simp [State.init] at hk
  · intro t ht; simp [State.init] at ht
  · intro c hcase; simp [State.init] at hcase

/-! ## The connection in the hands of the accept loop -/

theorem Dial_sessions {s s1 : State} {t t1 : DialCall} {o : Outcome}
    (h : Dial s t o = some (s1, t1)) :
    (∀ k c, s1.sessions k = some c → s.sessions k = some c ∨ t.pc = .storeConn c) ∧
    (∀ c, t1.pc = .storeConn c → c.id = s.nextConn) ∧ s1.acceptor = s.acceptor := by
  unfold Dial at h
  repeat' split at h
  all_goals simp at h
  all_goals obtain ⟨rfl, rfl⟩ := h
  all_goals refine ⟨?_, ?_, ?_⟩
  all_goals first
    | rfl
    | exact (Defer.run_frame _ _ _).2.2
    | (intro k c hc; exact Or.inl hc)
    | (intro c hc; solve | simp at hc)
    | (intro c hc; solve | (simp at hc; rw [← hc]))
    | (intro k c hc; rw [(Defer.run_frame _ _ _).1] at hc; exact Or.inl hc)
    | (intro c hc; exfalso; simp_all)
    | skip
  · rename_i qc hpc
    intro k c hc
    simp only [SyncMap.Store] at hc
    split at hc
    · cases hc; exact Or.inr hpc
    · exact Or.inl hc

theorem step_Distinct {s s1 : State} {e : Event} (h : step s e = some s1) (hf : Fresh s)
    (hd : Distinct s) : Distinct s1 := by
  obtain ⟨hs, hc, ha⟩ := hf
  cases e with
  | call host =>
    simp [step] at h; subst h
    intro c hp
    refine ⟨(hd c hp).1, ?_⟩
    intro t ht c1 hpc
    rcases List.mem_append.1 ht with ht | ht
    · exact (hd c hp).2 t ht c1 hpc
    · simp [DialCall.new] at ht
      subst ht
      cases hpc
  | dial i o =>
    simp only [step] at h
    cases ht : s.calls[i]? with
    | none => simp [ht] at h
    | some t =>
      cases hdl : Dial s t o with
      | none => simp [ht, hdl] at h
      | some r =>
        obtain ⟨s2, t2⟩ := r
        simp [ht, hdl] at h
        subst h
        have hmem : t ∈ s.calls := List.getElem?_mem ht
        obtain ⟨h1, h2, h3⟩ := Dial_sessions hdl
        intro c hp
        simp only [h3] at hp
        refine ⟨?_, ?_⟩
        · intro k c1 hk
          rcases h1 k c1 hk with hk | hk
          · exact (hd c hp).1 k c1 hk
          · exact (hd c hp).2 t hmem c1 hk
        · intro t3 ht3 c1 hpc
          rcases List.mem_or_eq_of_mem_set ht3 with hm | rfl
          · rw [Dial_calls hdl] at hm
            exact (hd c hp).2 t3 hm c1 hpc
          · have := h2 c1 hpc
            have := ha c hp
            omega
  | deadline i =>
    simp only [step] at h
    cases ht : s.calls[i]? with
    | none => simp [ht] at h
    | some t => simp [ht] at h; subst h; exact hd
  | inbound remote =>
    simp only [step] at h
    split at h <;> simp at h
    subst h
    intro c hp
    simp at hp
    subst hp
    refine ⟨fun k c1 hk => ?_, fun t ht c1 hpc => ?_⟩
    · have := hs k c1 hk
      simp; omega
    · have := hc t ht c1 hpc
      simp; omega
  | acceptFailed =>
    simp only [step] at h
    split at h <;> simp at h
    subst h
    intro c hp
    simp at hp
  | acceptor =>
    simp only [step] at h
    cases hacc : s.acceptor with
    | accept => simp [connectionAcceptLoop, hacc] at h
    | stopped => simp [connectionAcceptLoop, hacc] at h
    | evict qc =>
      have hq := hd qc (Or.inl hacc)
      have hdel : ∀ k c1, s.sessions.Delete qc.RemoteAddrString k = some c1 → c1.id ≠ qc.id := by
        intro k c1 hk
        simp only [SyncMap.Delete] at hk
        split at hk
        · cases hk
        · exact hq.1 k c1 hk
      simp only [connectionAcceptLoop, hacc, SyncMap.LoadAndDelete] at h
      cases hld : s.sessions qc.RemoteAddrString with
      | none =>
        simp [hld] at h; subst h
        intro c hp
        simp at hp
        subst hp
        exact ⟨hdel, hq.2⟩
      | some eqc =>
        simp [hld] at h; subst h
        intro c hp
        simp at hp
        obtain ⟨rfl, _⟩ := hp
        exact ⟨hdel, hq.2⟩
    | closeOld qc eqc =>
      have hq := hd qc (Or.inr (Or.inl ⟨eqc, hacc⟩))
      simp [connectionAcceptLoop, hacc] at h; subst h
      intro c hp
      simp at hp
      subst hp
      exact hq
    | install qc =>
      simp [connectionAcceptLoop, hacc] at h; subst h
      intro c hp
      simp at hp
    | takeTicket qc =>
      simp only [connectionAcceptLoop, hacc, SyncMap.LoadAndDelete] at h
      cases hld : s.dials qc.RemoteAddrString with
      | none =>
        simp [hld] at h; subst h
        intro c hp
        simp at hp
      | some d =>
        simp [hld] at h; subst h
        intro c hp
        simp at hp
    | cancel qc d =>
      simp [connectionAcceptLoop, hacc] at h; subst h
      intro c hp
      simp at hp
    | spawn qc =>
      simp [connectionAcceptLoop, hacc] at h; subst h
      intro c hp
      simp at hp
  | stream j o =>
    simp only [step] at h
    cases hl : s.loops[j]? with
    | none => simp [hl] at h
    | some l =>
      cases hdl : streamAcceptLoop s l o with
      | none => simp [hl, hdl] at h
      | some r =>
        obtain ⟨s2, l2⟩ := r
        simp [hl, hdl] at h
        subst h
        unfold streamAcceptLoop at hdl
        repeat' split at hdl
        all_goals simp at hdl
        all_goals obtain ⟨rfl, rfl⟩ := hdl
        all_goals first
          | exact hd
          | skip
        intro c hp
        refine ⟨?_, (hd c hp).2⟩
        intro k c1 hk
        simp only [SyncMap.Delete] at hk
        split at hk
        · cases hk
        · exact (hd c hp).1 k c1 hk
  | recv =>
    simp only [step] at h
    split at h <;> simp at h
    subst h; exact hd

theorem exec_Distinct : ∀ (es : List Event) (s s1 : State), exec s es = some s1 →
    Fresh s → Distinct s → Distinct s1
  | [], s, s1, h, _, hp => by
    simp [exec] at h; subst h; exact hp
  | e :: es, s, s1, h, hf, hp => by
    simp only [exec] at h
    cases hs : step s e with
    | none => simp [hs] at h
    | some s2 =>
      simp only [hs] at h
      exact exec_Distinct es s2 s1 h (step_Fresh hs hf) (step_Distinct hs hf hp)

theorem Reachable.distinct {s : State} (h : Reachable s) : Distinct s := by
  obtain ⟨es, he⟩ := h
  refine exec_Distinct es State.init s he ⟨?_, ?_, ?_⟩ ?_
  · intro k c hk; simp [State.init] at hk
  · intro t ht; simp [State.init] at ht
  · intro c hcase; simp [State.init] at hcase
  · intro c hcase; simp [State.init] at hcase

/-! ## Between the steps of the accept loop, and while a call waits -/

/-- A step of another goroutine leaves the program point of the accept loop
as it is, once `listener.Accept` has returned. -/
theorem step_acceptor_other {s s1 : State} {e : Event} (h : step s e = some s1)
    (he : e ≠ .acceptor) (hacc : s.acceptor ≠ .accept) : s1.acceptor = s.acceptor := by
  cases e with
  | call host => simp [step] at h; subst h; rfl
  | dial i o =>
    simp only [step] at h
    cases ht : s.calls[i]? with
    | none => simp [ht] at h
    | some t =>
      cases hdl : Dial s t o with
      | none => simp [ht, hdl] at h
      | some r =>
        obtain ⟨s2, t2⟩ := r
        simp [ht, hdl] at h
        subst h
        exact (Dial_sessions hdl).2.2
  | deadline i =>
    simp only [step] at h
    cases ht : s.calls[i]? with
    | none => simp [ht] at h
    | some t => simp [ht] at h; subst h; rfl
  | inbound remote =>
    simp only [step] at h
    cases h
  | acceptFailed =>
    simp only [step] at h
    cases h
  | acceptor => exact absurd rfl he
  | stream j o =>
    simp only [step] at h
    cases hl : s.loops[j]? with
    | none => simp [hl] at h
    | some l =>
      cases hdl : streamAcceptLoop s l o with
      | none => simp [hl, hdl] at h
      | some r =>
        obtain ⟨s2, l2⟩ := r
        simp [hl, hdl] at h
        subst h
        unfold streamAcceptLoop at hdl
        repeat' split at hdl
        all_goals simp at hdl
        all_goals obtain ⟨rfl, rfl⟩ := hdl
        all_goals rfl
  | recv =>
    simp only [step] at h
    split at h <;> simp at h
    subst h; rfl

/-- Between two steps of the accept loop, whatever the other goroutines do,
the loop stays at its program point. -/
theorem exec_acceptor_other : ∀ (es : List Event) (s s1 : State), exec s es = some s1 →
    Event.acceptor ∉ es → s.acceptor ≠ .accept → s1.acceptor = s.acceptor
  | [], s, s1, h, _, _ => by
    simp [exec] at h; subst h; rfl
  | e :: es, s, s1, h, hno, hacc => by
    simp only [exec] at h
    cases hs : step s e with
    | none => simp [hs] at h
    | some s2 =>
      simp only [hs] at h
      have he : e ≠ .acceptor := fun hq => hno (by simp [hq])
      have h2 := step_acceptor_other hs he hacc
      have h3 := exec_acceptor_other es s2 s1 h (fun hm => hno (List.mem_cons_of_mem _ hm))
        (by rw [h2]; exact hacc)
      rw [h3, h2]

/-- A call that waits on a ticket is as it was after any list of events that
leaves the context of the ticket not done. -/
theorem exec_wait_blocked : ∀ (es : List Event) (s s1 : State) (i : Nat) (t : DialCall)
    (d : Ctx), s.calls[i]? = some t → t.pc = .wait d → exec s es = some s1 →
    d.isDone s1.cancelled = false → s1.calls[i]? = some t
  | [], s, s1, i, t, d, ht, _, hex, _ => by
    simp [exec] at hex; subst hex; exact ht
  | e :: es, s, s1, i, t, d, ht, hpc, hex, hd => by
    simp only [exec] at hex
    cases hs : step s e with
    | none => simp [hs] at hex
    | some s2 =>
      simp only [hs] at hex
      refine exec_wait_blocked es s2 s1 i t d ?_ hpc hex hd
      by_cases hne : ∀ o, e ≠ .dial i o
      · exact step_call_other hs i t ht hne
      · exfalso
        push_neg at hne
        obtain ⟨o, rfl⟩ := hne
        have hnd : d.isDone s.cancelled = false := by
          cases hb : d.isDone s.cancelled with
          | false => rfl
          | true =>
            have h2 := Ctx.isDone_mono (exec_cancelled es s2 s1 hex) d
              (Ctx.isDone_mono (fun c hc => step_cancelled hs c hc) d hb)
            rw [h2] at hd; cases hd
        simp [step, ht, Dial, hpc, hnd] at hs

/-! ## Inbound identity verification (C8) -/

/-- C8, as stated, fails: the remote address `peerHost` (`ab` followed by 62
zeros) and the claimed hostname `peerHostUpper` (`AB` followed by 62 zeros)
decode to the same 32 bytes, yet `AnonymousLogin` in external mode rejects
the login; so it does for the address `ab` and the hostname `AB`. -/
theorem AnonymousLogin_rejects_same_bytes :
    DecodeString peerHostUpper = DecodeString peerHost ∧
    DecodeString peerHost = some peerAddr ∧
    AnonymousLogin BackendModeExternal { RemoteAddr := peerHost, Hostname := peerHostUpper }
      = .error .notWhoYouClaimToBe ∧
    DecodeString "AB" = DecodeString "ab" ∧ DecodeString "ab" = some [171] ∧
    AnonymousLogin BackendModeExternal { RemoteAddr := "ab", Hostname := "AB" }
      = .error .notWhoYouClaimToBe := by
  refine ⟨by decide, by decide, rfl, by decide, by decide, rfl⟩

/-- C8, amended: in external mode `AnonymousLogin` succeeds exactly when the
remote address is valid hex and the claimed hostname is, as a string, the
lowercase hex encoding of the decoded bytes; on success the hostname decodes
to the same bytes as the address, and these are the public key of the
session. -/
theorem AnonymousLogin_external_iff (state : ConnectionState) :
    ((∃ sess, AnonymousLogin BackendModeExternal state = .ok sess) ↔
      ∃ pks, DecodeString state.RemoteAddr = some pks ∧ state.Hostname = EncodeToString pks) ∧
    (∀ sess, AnonymousLogin BackendModeExternal state = .ok sess →
      sess.state = state ∧ DecodeString state.RemoteAddr = some sess.public ∧
      DecodeString state.Hostname = some sess.public) := by
  have hne : ¬ (BackendModeExternal = BackendModeInternal) := by decide
  unfold AnonymousLogin
  rw [if_neg hne, if_pos rfl]
  cases hd : DecodeString state.RemoteAddr with
  | none => simp
  | some pks =>
    have hlt := DecodeString_lt _ _ hd
    by_cases hh : state.Hostname = EncodeToString pks
    · have hif : (if state.Hostname ≠ EncodeToString pks
          then (Except.error LoginError.notWhoYouClaimToBe : Except LoginError SessionRemote)
          else .ok { state := state, public := pks }) = .ok { state := state, public := pks } :=
        if_neg (not_not.2 hh)
      simp only [hif]
      refine ⟨⟨fun _ => ⟨pks, rfl, hh⟩, fun _ => ⟨_, rfl⟩⟩, ?_⟩
      intro sess hs
      cases hs
      exact ⟨rfl, rfl, hh ▸ DecodeString_EncodeToString pks hlt⟩
    · have hif : (if state.Hostname ≠ EncodeToString pks
          then (Except.error LoginError.notWhoYouClaimToBe : Except LoginError SessionRemote)
          else .ok { state := state, public := pks }) = .error .notWhoYouClaimToBe :=
        if_pos hh
      simp only [hif]
      refine ⟨⟨?_, ?_⟩, ?_⟩
      · rintro ⟨_, h⟩
        cases h
      · rintro ⟨p, hp, he⟩
        cases hp
        exact absurd he hh
      · intro _ h
        cases h

/-- An instance of `AnonymousLogin_external_iff`: the address `ab01` with
the hostname `ab01` is accepted. -/
theorem AnonymousLogin_external_iff_witness :
    ∃ sess, AnonymousLogin BackendModeExternal { RemoteAddr := "ab01", Hostname := "ab01" }
      = .ok sess :=
  (AnonymousLogin_external_iff { RemoteAddr := "ab01", Hostname := "ab01" }).1.2
    ⟨[171, 1], by decide, by decide⟩

/-! ## Dedup of concurrent dials (C1) -/

/-- C1, as stated, fails. In `dedupRace` two `Dial("ab")` calls, started
while no connection is registered, both look up the tickets before either
stores one: both end up inside `transport.Dial` for the same address, each
with a ticket of its own. In `dedupOwnerFails` the second call waits on the
ticket of the first, whose connect fails with error 7; the second call then
connects by itself: two connects are made, the first call returns the
connect error and the second call returns a stream. -/
theorem Dial_dedup_fails :
    (exec State.init dedupRace).map
        (fun s => (s.calls.map (fun t => (t.pc, t.tickets)), connecting s (copyAddr [171]),
          s.sessions "ab"))
      = some ([(.connect (.dial 0 0) (copyAddr [171]), 1),
               (.connect (.dial 1 0) (copyAddr [171]), 1)], 2, none) ∧
    (exec State.init dedupOwnerFails).map
        (fun s => s.calls.map (fun t => (t.pc, t.connects)))
      = some [(.done (.connectError 7), 1),
              (.done (.session { id := 0, remote := copyAddr [171] } 0 none), 1)] := by
  constructor <;> decide

/-- C1, amended: a `Dial` call that found a ticket at its ticket lookup and
waits on it takes no step in any interleaving for as long as the context of
that ticket is not done: its local state, and with it its count of
connects and of tickets, is the same after any list of events. Once that
context is done, if the second registry lookup finds a connection `qc`,
the call goes on to open its stream on `qc`, having stored no ticket and
started no connect. -/
theorem Dial_waits_for_ticket (s s1 : State) (es : List Event) (i : Nat) (t : DialCall)
    (d : Ctx) (ht : s.calls[i]? = some t) (hpc : t.pc = .wait d)
    (hex : exec s es = some s1) :
    (d.isDone s1.cancelled = false → s1.calls[i]? = some t) ∧
    (∀ (sa sb : State) (oa ob : Outcome) (qc : Conn),
      d.isDone sa.cancelled = true → sb.sessions t.host = some qc →
      dialRun t [(sa, oa), (sb, ob)] = some { t with qc := some qc, pc := .openStream } ∧
      (Dial sa t oa).map (fun r => r.1.dials) = some sa.dials ∧
      (Dial sb { t with pc := .load2 } ob).map (fun r => r.1.dials) = some sb.dials) := by
  constructor
  · intro hd
    induction es generalizing s with
    | nil => simp [exec] at hex; subst hex; exact ht
    | cons e es ih =>
      simp only [exec] at hex
      cases hs : step s e with
      | none => simp [hs] at hex
      | some s2 =>
        simp only [hs] at hex
        refine ih s2 ?_ hex
        by_cases hne : ∀ o, e ≠ .dial i o
        · exact step_call_other hs i t ht hne
        · exfalso
          push_neg at hne
          obtain ⟨o, rfl⟩ := hne
          have hnd : d.isDone s.cancelled = false := by
            cases hb : d.isDone s.cancelled with
            | false => rfl
            | true =>
              have h2 := Ctx.isDone_mono (exec_cancelled es s2 s1 hex) d
                (Ctx.isDone_mono (fun c hc => step_cancelled hs c hc) d hb)
              rw [h2] at hd; cases hd
          simp [step, ht, Dial, hpc, hnd] at hs
  · intro sa sb oa ob qc hdone hqc
    simp [dialRun, Dial, hpc, hdone, hqc, SyncMap.Load]

/-- An instance of `Dial_waits_for_ticket`: call 1 waits on the ticket of
call 0; call 0 enters `transport.Dial` and an inbound connection of the peer
gets registered; the ticket is not cancelled yet and call 1 has not moved. -/
theorem Dial_waits_for_ticket_witness :
    (stateAfter [.call peerHost, .call peerHost, .dial 0 .ok, .dial 0 .ok, .dial 0 .ok, .dial 0 .ok,
      .dial 1 .ok, .dial 1 .ok, .dial 0 .ok, .inbound peerAddr, .acceptor, .acceptor]).calls[1]?
      = some { DialCall.new 1 peerHost with pc := .wait (.dial 0 0) } :=
  (Dial_waits_for_ticket waitingState _ [.dial 0 .ok, .inbound peerAddr, .acceptor, .acceptor] 1
    { DialCall.new 1 peerHost with pc := .wait (.dial 0 0) } (.dial 0 0)
    (by decide) rfl (by rfl)).1 (by decide)

/-! ## Replacement by an inbound connection (C2) -/

/-- C2, as stated, fails. In `replaceOtherKey` a `Dial` call for the
upper-case spelling of the address of the peer registers connection 0 of
the peer under that string; the accept loop then accepts connection 1 of
the same peer and looks the registry up under the lowercase string:
connection 0 is not closed and stays registered next to connection 1. -/
theorem connectionAcceptLoop_keeps_other_key :
    (exec State.init (replaceOtherKey.take 8)).map
        (fun s => (s.sessions peerHostUpper, s.sessions peerHost, s.closed))
      = some (some { id := 0, remote := peerAddr }, none, []) ∧
    (exec State.init replaceOtherKey).map
        (fun s => (s.sessions peerHostUpper, s.sessions peerHost, s.closed, s.acceptor))
      = some (some { id := 0, remote := peerAddr }, some { id := 1, remote := peerAddr }, [],
              .accept) := by
  refine ⟨by decide, by decide⟩

/-- C2, amended: the replacement is by key. In a state where `old` is
registered under the string form of the address `remote` and the accept
loop is in `listener.Accept`, the loop accepting a connection of that
address (`Accept` returns it, `LoadAndDelete` finds `old`, `old` is closed
with "Connection replaced", `Store` registers the new connection) leaves
`old` closed with that reason and only `old` closed, that key mapped to the
new connection, which in a reachable state is not `old`, and the entries of
all other keys as before. In any interleaving each of the three steps of
the loop has this effect in whatever state it is taken, given that `old` is
what `LoadAndDelete` finds; in a reachable state the connection in the
hands of the loop is none of the registered ones. -/
theorem connectionAcceptLoop_replaces (s : State) (remote : List Nat) (old : Conn)
    (hacc : s.acceptor = .accept) (hold : s.sessions (EncodeToString remote) = some old) :
    (∃ s1, exec s [.inbound remote, .acceptor, .acceptor, .acceptor] = some s1 ∧
      s1.closed = (old, "Connection replaced") :: s.closed ∧
      s1.sessions (EncodeToString remote) = some { id := s.nextConn, remote := remote } ∧
      (∀ k, k ≠ EncodeToString remote → s1.sessions k = s.sessions k) ∧
      (Reachable s → s1.sessions (EncodeToString remote) ≠ some old)) ∧
    (∀ (qc : Conn) (sa sb sc : State),
      sa.acceptor = .evict qc → sa.sessions qc.RemoteAddrString = some old →
      sb.acceptor = .closeOld qc old → sc.acceptor = .install qc →
      (∃ sa1, step sa .acceptor = some sa1 ∧ sa1.acceptor = .closeOld qc old ∧
        sa1.sessions qc.RemoteAddrString = none ∧
        (∀ k, k ≠ qc.RemoteAddrString → sa1.sessions k = sa.sessions k) ∧
        sa1.closed = sa.closed ∧ (Reachable sa → old ≠ qc)) ∧
      (∃ sb1, step sb .acceptor = some sb1 ∧ sb1.acceptor = .install qc ∧
        sb1.closed = (old, "Connection replaced") :: sb.closed ∧
        sb1.sessions = sb.sessions) ∧
      (∃ sc1, step sc .acceptor = some sc1 ∧ sc1.acceptor = .takeTicket qc ∧
        sc1.sessions qc.RemoteAddrString = some qc ∧
        (∀ k, k ≠ qc.RemoteAddrString → sc1.sessions k = sc.sessions k) ∧
        sc1.closed = sc.closed ∧
        (Reachable sc → ∀ k c, sc.sessions k = some c → c.id ≠ qc.id))) := by
  constructor
  · refine ⟨{ s with sessions := (s.sessions.Delete (EncodeToString remote)).Store
                        (EncodeToString remote) { id := s.nextConn, remote := remote },
                     closed := (old, "Connection replaced") :: s.closed,
                     nextConn := s.nextConn + 1,
                     acceptor := .takeTicket { id := s.nextConn, remote := remote } },
      ?_, rfl, ?_, ?_, ?_⟩
    · simp [exec, step, hacc, connectionAcceptLoop, SyncMap.LoadAndDelete,
        Conn.RemoteAddrString, hold]
    · simp [SyncMap.Store]
    · intro k hk
      simp [SyncMap.Store, SyncMap.Delete, hk]
    · intro hr heq
      have hlt := hr.fresh.1 _ _ hold
      simp [SyncMap.Store] at heq
      rw [← heq] at hlt
      exact Nat.lt_irrefl _ hlt
  · intro qc sa sb sc ha hfound hb hc
    refine ⟨⟨{ sa with sessions := sa.sessions.Delete qc.RemoteAddrString,
                       acceptor := .closeOld qc old }, ?_, rfl, ?_, ?_, rfl, ?_⟩,
            ⟨{ sb with closed := (old, "Connection replaced") :: sb.closed,
                       acceptor := .install qc }, ?_, rfl, rfl, rfl⟩,
            ⟨{ sc with sessions := sc.sessions.Store qc.RemoteAddrString qc,
                       acceptor := .takeTicket qc }, ?_, rfl, ?_, ?_, rfl, ?_⟩⟩
    · simp [step, connectionAcceptLoop, ha, SyncMap.LoadAndDelete, hfound]
    · simp [SyncMap.Delete]
    · intro k hk
      simp [SyncMap.Delete, hk]
    · intro hr heq
      exact (hr.distinct qc (Or.inl ha)).1 _ _ hfound (by rw [heq])
    · simp [step, connectionAcceptLoop, hb]
    · simp [step, connectionAcceptLoop, hc]
    · simp [SyncMap.Store]
    · intro k hk
      simp [SyncMap.Store, hk]
    · intro hr k c hk
      exact (hr.distinct qc (Or.inr (Or.inr hc))).1 k c hk

/-- An instance of `connectionAcceptLoop_replaces`: connection 0 of the
peer is registered and a second connection of the peer is accepted. -/
theorem connectionAcceptLoop_replaces_witness :
    ∃ s1, exec registeredState [.inbound peerAddr, .acceptor, .acceptor, .acceptor] = some s1 ∧
      s1.closed = [({ id := 0, remote := peerAddr }, "Connection replaced")] ∧
      s1.sessions peerHost = some { id := 1, remote := peerAddr } :=
  let ⟨s1, h1, h2, h3, _⟩ := (connectionAcceptLoop_replaces registeredState peerAddr
    { id := 0, remote := peerAddr } (by decide) (by decide)).1
  ⟨s1, h1, h2, h3⟩

/-! ## Removal at the end of a stream loop (C3) -/

/-- C3, as stated, fails. In `replacedLoopEnds` connection 0 of the peer is
replaced by connection 1; before the last event the registry maps the peer
to connection 1 and the loop of connection 0 is at its deferred `Delete`;
after it the registry has no entry for the peer. -/
theorem streamAcceptLoop_removes_replacement :
    (exec State.init (replacedLoopEnds.take 12)).map
        (fun s => (s.sessions peerHost, s.loops.map (fun l => (l.qc.id, l.pc)), s.closed))
      = some (some { id := 1, remote := peerAddr }, [(0, .delete), (1, .acceptStream)],
              [({ id := 0, remote := peerAddr }, "Connection replaced")]) ∧
    (exec State.init replacedLoopEnds).map
        (fun s => (s.sessions peerHost, s.loops.map (fun l => (l.qc.id, l.pc))))
      = some (none, [(0, .close), (1, .acceptStream)]) := by
  refine ⟨by decide, by decide⟩

/-- C3, amended: when `AcceptStream` of the stream loop of a connection
fails, the loop deletes the registry entry of the key of its peer whatever
connection is registered there, then closes its connection with
"Timed out" and ends; the entries of all other keys are as before. -/
theorem streamAcceptLoop_removes_unguarded (s : State) (j : Nat) (l : StreamLoop) (e : Nat)
    (o1 o2 : Outcome) (hl : s.loops[j]? = some l) (hpc : l.pc = .acceptStream) :
    ∃ s1, exec s [.stream j (.err e), .stream j o1, .stream j o2] = some s1 ∧
      s1.sessions l.qc.RemoteAddrString = none ∧
      (∀ k, k ≠ l.qc.RemoteAddrString → s1.sessions k = s.sessions k) ∧
      s1.closed = (l.qc, "Timed out") :: s.closed ∧
      s1.loops[j]? = some { l with pc := .finished } := by
  have hlt : j < s.loops.length := by
    by_contra hge
    rw [List.getElem?_eq_none (by omega)] at hl
    cases hl
  refine ⟨{ s with sessions := s.sessions.Delete l.qc.RemoteAddrString,
                   closed := (l.qc, "Timed out") :: s.closed,
                   loops := ((s.loops.set j { l with pc := .delete }).set j
                      { l with pc := .close }).set j { l with pc := .finished } },
    ?_, ?_, ?_, rfl, ?_⟩
  · simp [exec, step, hl, streamAcceptLoop, hpc, hlt]
  · simp [SyncMap.Delete]
  · intro k hk
    simp [SyncMap.Delete, hk]
  · simp [hlt]

/-- An instance of `streamAcceptLoop_removes_unguarded`: the loop of the
one registered connection ends. -/
theorem streamAcceptLoop_removes_unguarded_witness :
    ∃ s1, exec registeredState [.stream 0 (.err 0), .stream 0 .ok, .stream 0 .ok] = some s1 ∧
      s1.sessions peerHost = none :=
  let ⟨s1, h1, h2, _⟩ := streamAcceptLoop_removes_unguarded registeredState 0
    { qc := { id := 0, remote := peerAddr }, pc := .acceptStream } 0 .ok .ok (by decide) rfl
  ⟨s1, h1, h2⟩

/-! ## Cancellation by the accept loop (C4) -/

/-- C4, as stated, fails. In `inboundDuringConnect` a `Dial` call stores its
ticket with the context `dialctx` and enters `transport.Dial(dialctx, ...)`;
that context is not done. After the accept loop handled an inbound
connection of the same peer (`LoadAndDelete` on the tickets, `CancelFunc`)
the call is still inside `transport.Dial` and the context it runs under is
done. -/
theorem cancelFor_cancels_dial_context :
    (exec State.init (inboundDuringConnect.take 6)).map
        (fun s => (s.calls.map (fun t => t.pc), s.dials peerHost,
          (Ctx.dial 0 0).isDone s.cancelled))
      = some ([.connect (.dial 0 0) peerAddr], some (.dial 0 0), false) ∧
    (exec State.init inboundDuringConnect).map
        (fun s => (s.calls.map (fun t => t.pc), (Ctx.dial 0 0).isDone s.cancelled))
      = some ([.connect (.dial 0 0) peerAddr], true) := by
  refine ⟨by decide, by decide⟩

/-- C4, amended: the ticket a `Dial` call stores holds the very context its
`transport.Dial` runs under. When a call is inside `transport.Dial` under
the context `d` and the ticket registered for the peer of an inbound
connection holds `d`, the two steps of the accept loop on the tickets
(`LoadAndDelete`, `CancelFunc`) remove the ticket and leave `d` done: the
cancellation that releases the waiters also cancels the context of the
connect in flight, the call being still inside `transport.Dial`. -/
theorem cancelFor_cancels_owner (s : State) (i : Nat) (t : DialCall) (d : Ctx)
    (addr : List Nat) (qc : Conn) (ht : s.calls[i]? = some t) (hpc : t.pc = .connect d addr)
    (hacc : s.acceptor = .takeTicket qc) (hticket : s.dials qc.RemoteAddrString = some d) :
    (∃ s1, exec s [.acceptor, .acceptor] = some s1 ∧ d.isDone s1.cancelled = true ∧
      s1.dials qc.RemoteAddrString = none ∧ s1.calls[i]? = some t) ∧
    (∀ (t0 : DialCall) (k : List Nat) (sa sb : State) (oa ob : Outcome),
      t0.pc = .storeTicket → DecodeString t0.host = some k →
      (Dial sa t0 oa).map (fun r => r.1.dials t0.host) = some (some (.dial t0.id t0.tickets)) ∧
      (dialRun t0 [(sa, oa), (sb, ob)]).map (fun t1 => t1.pc)
        = some (.connect (.dial t0.id t0.tickets) (copyAddr k))) := by
  constructor
  · refine ⟨{ s with dials := s.dials.Delete qc.RemoteAddrString,
                     cancelled := d :: s.cancelled, acceptor := .spawn qc }, ?_, ?_, ?_, ?_⟩
    · simp [exec, step, connectionAcceptLoop, hacc, SyncMap.LoadAndDelete, hticket]
    · cases d <;> simp [Ctx.isDone]
    · simp [SyncMap.Delete]
    · simpa using ht
  · intro t0 k sa sb oa ob hpc0 hk
    simp [dialRun, Dial, hpc0, hk, SyncMap.Store]

/-- An instance of `cancelFor_cancels_owner`: call 0 is inside
`transport.Dial` under its first `dialctx` when the accept loop reaches the
tickets. -/
theorem cancelFor_cancels_owner_witness :
    ∃ s1, exec connectingState [.acceptor, .acceptor] = some s1 ∧
      (Ctx.dial 0 0).isDone s1.cancelled = true ∧
      s1.dials (Conn.RemoteAddrString { id := 0, remote := peerAddr }) = none ∧
      s1.calls[0]? = some { DialCall.new 0 peerHost with
        defers := [.deleteTicket, .cancel (.dial 0 0), .cancel (.timeout 0)],
        tickets := 1, pc := .connect (.dial 0 0) peerAddr, connects := 1 } :=
  (cancelFor_cancels_owner connectingState 0
    { DialCall.new 0 peerHost with
        defers := [.deleteTicket, .cancel (.dial 0 0), .cancel (.timeout 0)],
        tickets := 1, pc := .connect (.dial 0 0) peerAddr, connects := 1 }
    (.dial 0 0) peerAddr { id := 0, remote := peerAddr } (by decide) rfl (by decide)
    (by decide)).1

/-! ## Stream-open retry (C5) -/

/-- C5, as stated, fails. In `retryKickFails` the call finds a connection
registered, its first `OpenStreamSync` fails with error 3 and its second
succeeds; the kick write on the stream then fails with error 9 and the call
returns the stream together with error 9: the second attempt succeeded and
the call did not return success. -/
theorem Dial_retry_kick_failure :
    (exec State.init retryKickFails).map (fun s => s.calls.map (fun t => (t.pc, t.retry, t.opens)))
      = some [(.done (.session { id := 0, remote := peerAddr } 0 (some 9)), true, 2)] := by
  decide

/-- C5, amended: a `Dial(host)` call that finds the connection `qc`
registered at its registry lookups, whatever the other goroutines do in
between (the states `s1`, ... are the ones the call finds at its steps). If
the first `OpenStreamSync` succeeds the call makes one attempt and returns
the stream together with the result `w` of the kick write on it. If it
fails, the call looks the registry up again and makes one further attempt:
when that one succeeds it returns the stream opened by it together with the
result `w` of the kick write on it (no error when the write succeeds, the
error of the write otherwise), when it fails with `e2` it returns `e2`; in
both cases two attempts were made and the call has returned, so that it
takes no further step. In every reachable state every call has made at most
two attempts. -/
theorem Dial_stream_open_retry (i : Nat) (host : String) (qc : Conn) (e1 e2 : Nat)
    (w : Outcome) (s1 s2 s3 s4 s5 s6 s7 : State) (o1 o3 o4 o5 o6 o7 : Outcome)
    (h1 : s1.sessions host = some qc) (h3 : s3.sessions host = some qc) :
    dialRun (DialCall.new i host) [(s1, o1), (s2, .ok), (s3, w), (s4, o4), (s5, o5)]
      = some { DialCall.new i host with
                 qc := some qc, defers := [],
                 pc := .done (.session qc s2.nextStream w.error), opens := 1 } ∧
    dialRun (DialCall.new i host)
        [(s1, o1), (s2, .err e1), (s3, o3), (s4, .ok), (s5, w), (s6, o6), (s7, o7)]
      = some { DialCall.new i host with
                 retry := true, qc := some qc, defers := [],
                 pc := .done (.session qc s4.nextStream w.error), opens := 2 } ∧
    dialRun (DialCall.new i host)
        [(s1, o1), (s2, .err e1), (s3, o3), (s4, .err e2), (s5, o5), (s6, o6)]
      = some { DialCall.new i host with
                 retry := true, qc := some qc, defers := [],
                 pc := .done (.openError e2), opens := 2 } ∧
    (∀ (s : State) (o : Outcome) (t : DialCall) (r : DialResult),
      t.pc = .done r → Dial s t o = none) ∧
    (∀ (s : State) (j : Nat) (t : DialCall), Reachable s → s.calls[j]? = some t →
      t.opens ≤ 2) := by
  refine ⟨?_, ?_, ?_, ?_, ?_⟩
  · simp [dialRun, Dial, DialCall.new, h1, SyncMap.Load, Defer.run]
  · simp [dialRun, Dial, DialCall.new, h1, h3, SyncMap.Load, Defer.run]
  · simp [dialRun, Dial, DialCall.new, h1, h3, SyncMap.Load, Defer.run]
  · intro s o t r hpc
    simp [Dial, hpc]
  · intro s j t hr ht
    obtain ⟨host0, envs, hrun⟩ := hr.callsRun j t ht
    exact openBound_le t (dialRun_openBound envs _ t hrun (by simp [openBound, DialCall.new]))

/-- An instance of `Dial_stream_open_retry`: over the registered
connection 0 the first attempt fails with error 3, the second succeeds, as
does the kick write. -/
theorem Dial_stream_open_retry_witness :
    dialRun (DialCall.new 0 peerHost)
        [(registeredState, .ok), (registeredState, .err 3), (registeredState, .ok),
         (registeredState, .ok), (registeredState, .ok), (registeredState, .ok),
         (registeredState, .ok)]
      = some { DialCall.new 0 peerHost with
                 retry := true, qc := some { id := 0, remote := peerAddr }, defers := [],
                 pc := .done (.session { id := 0, remote := peerAddr } 0 none), opens := 2 } :=
  (Dial_stream_open_retry 0 peerHost { id := 0, remote := peerAddr } 3 0 .ok
    registeredState registeredState registeredState registeredState registeredState
    registeredState registeredState .ok .ok .ok .ok .ok .ok (by decide) (by decide)).2.1

/-! ## Failure of the kick write (C6) -/

/-- C6, as stated, fails. In `kickFails` the call finds a connection
registered, its first `OpenStreamSync` succeeds and the kick write fails
with error 5: the call returns the stream together with error 5, having
made one attempt and no retry. -/
theorem Dial_kick_failure_not_retried :
    (exec State.init kickFails).map (fun s => s.calls.map (fun t => (t.pc, t.retry, t.opens)))
      = some [(.done (.session { id := 0, remote := peerAddr } 0 (some 5)), false, 1)] := by
  decide

/-- C6, amended: a failure of the kick write is not retried. A call that
finds `qc` registered, opens a stream at the first attempt and fails the
kick write with `e` returns that stream together with `e`, after one
attempt. At either attempt, once the kick write of a call has failed with
`e`, whatever happens next the call makes no further attempt and what it
returns is the stream together with `e`. -/
theorem Dial_kick_failure_returned (i : Nat) (host : String) (qc : Conn) (e : Nat)
    (s1 s2 s3 s4 s5 : State) (o1 o4 o5 : Outcome) (h1 : s1.sessions host = some qc) :
    dialRun (DialCall.new i host) [(s1, o1), (s2, .ok), (s3, .err e), (s4, o4), (s5, o5)]
      = some { DialCall.new i host with
                 qc := some qc, defers := [],
                 pc := .done (.session qc s2.nextStream (some e)), opens := 1 } ∧
    (∀ (t t1 : DialCall) (c : Conn) (qs : Nat) (s : State) (envs : List (State × Outcome)),
      t.pc = .kick c qs → dialRun t ((s, .err e) :: envs) = some t1 →
      (t1.pc = .unwind (.session c qs (some e)) ∨ t1.pc = .done (.session c qs (some e))) ∧
      t1.opens = t.opens ∧ t1.retry = t.retry) := by
  constructor
  · simp [dialRun, Dial, DialCall.new, h1, SyncMap.Load, Defer.run, Outcome.error]
  · intro t t1 c qs s envs hpc h
    have hd : Dial s t (.err e)
        = some (s, { t with pc := .unwind (.session c qs (some e)) }) := by
      simp [Dial, hpc, Outcome.error]
    simp only [dialRun] at h
    rw [hd] at h
    have := dialRun_unwind envs { t with pc := .unwind (.session c qs (some e)) } t1
      (.session c qs (some e)) (Or.inl rfl) h
    exact ⟨this.1, this.2.1, this.2.2.2⟩

/-- An instance of `Dial_kick_failure_returned`: over the registered
connection 0 the kick write of the first attempt fails with error 5. -/
theorem Dial_kick_failure_returned_witness :
    dialRun (DialCall.new 0 peerHost)
        [(registeredState, .ok), (registeredState, .ok), (registeredState, .err 5),
         (registeredState, .ok), (registeredState, .ok)]
      = some { DialCall.new 0 peerHost with
                 qc := some { id := 0, remote := peerAddr }, defers := [],
                 pc := .done (.session { id := 0, remote := peerAddr } 0 (some 5)),
                 opens := 1 } :=
  (Dial_kick_failure_returned 0 peerHost { id := 0, remote := peerAddr } 5
    registeredState registeredState registeredState registeredState registeredState
    .ok .ok .ok (by decide)).1

/-! ## A waiter whose owner failed (C7) -/

/-- C7, as stated, fails. In `waiterRedials` call 1 finds the ticket of
call 0 and waits on it; the connect of call 0 fails and call 0 returns, no
connection being registered; call 1, released, stores a ticket of its own
and enters `transport.Dial`. -/
theorem Dial_waiter_connects_itself :
    (exec State.init (waiterRedials.take 8)).map
        (fun s => (s.calls.map (fun t => t.pc), s.dials "ab"))
      = some ([.decode (.dial 0 0), .wait (.dial 0 0)], some (.dial 0 0)) ∧
    (exec State.init (waiterRedials.take 14)).map
        (fun s => (s.calls.map (fun t => t.pc), s.sessions "ab", s.dials "ab",
          (Ctx.dial 0 0).isDone s.cancelled))
      = some ([.done (.connectError 7), .wait (.dial 0 0)], none, none, true) ∧
    (exec State.init waiterRedials).map
        (fun s => (s.calls.map (fun t => (t.pc, t.tickets, t.connects)), s.dials "ab"))
      = some ([(.done (.connectError 7), 1, 1), (.connect (.dial 1 0) (copyAddr [171]), 1, 1)],
              some (.dial 1 0)) := by
  refine ⟨by decide, by decide, by decide⟩

/-- C7, amended: a `Dial` call that waited on a ticket and, the context of
the ticket being done, finds no connection registered at its second
lookup stores a ticket of its own and, its host being valid hex, enters
`transport.Dial` itself, whatever the other goroutines do in between; when
that connect fails with `e` the call runs its deferred calls and returns
`e`, the error of its own connect. -/
theorem Dial_waiter_redials (t : DialCall) (d : Ctx) (k : List Nat) (e : Nat)
    (s1 s2 s3 s4 s5 : State) (o1 o2 o3 o4 : Outcome) (envs : List (State × Outcome))
    (hpc : t.pc = .wait d) (hdone : d.isDone s1.cancelled = true)
    (hnone : s2.sessions t.host = none) (hk : DecodeString t.host = some k)
    (hlen : envs.length = t.defers.length + 3) :
    (Dial s3 { t with qc := none, pc := .storeTicket } o3).map (fun r => r.1.dials t.host)
      = some (some (.dial t.id t.tickets)) ∧
    dialRun t [(s1, o1), (s2, o2), (s3, o3), (s4, o4)]
      = some { t with qc := none,
                      defers := .deleteTicket :: .cancel (.dial t.id t.tickets) :: t.defers,
                      tickets := t.tickets + 1,
                      pc := .connect (.dial t.id t.tickets) (copyAddr k),
                      connects := t.connects + 1 } ∧
    dialRun t ([(s1, o1), (s2, o2), (s3, o3), (s4, o4), (s5, .err e)] ++ envs)
      = some { t with qc := none, defers := [], tickets := t.tickets + 1,
                      pc := .done (.connectError e), connects := t.connects + 1 } := by
  have h5 : dialRun t [(s1, o1), (s2, o2), (s3, o3), (s4, o4), (s5, .err e)]
      = some { t with qc := none,
                      defers := .deleteTicket :: .cancel (.dial t.id t.tickets) :: t.defers,
                      tickets := t.tickets + 1,
                      pc := .unwind (.connectError e),
                      connects := t.connects + 1 } := by
    simp [dialRun, Dial, hpc, hdone, hnone, hk, SyncMap.Load]
  refine ⟨?_, ?_, ?_⟩
  · simp [Dial, SyncMap.Store]
  · simp [dialRun, Dial, hpc, hdone, hnone, hk, SyncMap.Load]
  · rw [dialRun_append, h5]
    simp only [Option.bind]
    rw [dialRun_returns envs _ (.connectError e) rfl (by simp [hlen])]

/-- An instance of `Dial_waiter_redials`: call 1 of `Dial("ab")` waited on
the ticket of call 0, which is done, and no connection is registered. -/
theorem Dial_waiter_redials_witness :
    dialRun { DialCall.new 1 "ab" with pc := .wait (.dial 0 0) }
      [({ State.init with cancelled := [.dial 0 0] }, .ok), (State.init, .ok), (State.init, .ok),
       (State.init, .ok)]
      = some { DialCall.new 1 "ab" with
                 defers := [.deleteTicket, .cancel (.dial 1 0), .cancel (.timeout 1)],
                 tickets := 1, pc := .connect (.dial 1 0) (copyAddr [171]), connects := 1 } :=
  (Dial_waiter_redials { DialCall.new 1 "ab" with pc := .wait (.dial 0 0) } (.dial 0 0) [171] 0
    { State.init with cancelled := [.dial 0 0] } State.init State.init State.init State.init
    .ok .ok .ok .ok [(State.init, .ok), (State.init, .ok), (State.init, .ok), (State.init, .ok)]
    rfl (by decide) rfl (by decide) rfl).2.1

/-! ## Registry keys and peer identities (C9) -/

/-- C9, as stated, fails. In `twoKeys` the calls `Dial("AB")` and
`Dial("ab")` decode to the same bytes and connect to the same overlay
address, and an inbound connection of that address arrives: the registry
ends up with three connections of the one peer, under the keys `AB`, `ab`
and the lowercase hex string of the address, and two connects were made. -/
theorem registry_two_entries_one_peer :
    (exec State.init twoKeys).map
        (fun s => (s.sessions "AB", s.sessions "ab", s.sessions peerHost))
      = some (some { id := 0, remote := peerAddr }, some { id := 1, remote := peerAddr },
              some { id := 2, remote := peerAddr }) ∧
    DecodeString "AB" = DecodeString "ab" ∧ "AB" ≠ "ab" ∧
    (exec State.init twoKeys).map (fun s => s.calls.map (fun t => t.connects)) = some [1, 1] := by
  refine ⟨by decide, by decide, by decide, by decide⟩

/-- C9, amended: the registry key of `Dial(host)` is the string `host` as
given, for every host. Both registry lookups of a call read the entry of
`host`, and its `Store` writes the entry of `host` and of no other key. A
call whose host is valid hex, decoding to `k`, connects to the address
`copy(addr, k)` and registers the connection under `host`; this key is the
string form of the remote address of the connection, the key under which the
accept loop registers and the stream loop removes a connection of that
peer, exactly when `host` is the lowercase hex encoding of the address
dialled. It is so when `host` is the lowercase hex encoding of a 32-byte
address, which then is the address dialled. -/
theorem Dial_registry_key (t : DialCall) (d : Ctx) (k : List Nat) (s1 s2 : State)
    (o1 : Outcome) (hpc : t.pc = .decode d) (hk : DecodeString t.host = some k) :
    dialRun t [(s1, o1), (s2, .ok)]
      = some { t with qc := some { id := s2.nextConn, remote := copyAddr k },
                      pc := .storeConn { id := s2.nextConn, remote := copyAddr k },
                      connects := t.connects + 1 } ∧
    (∀ (t0 : DialCall) (qc : Conn) (s : State) (o : Outcome), t0.pc = .storeConn qc →
      (Dial s t0 o).map (fun r => r.1.sessions t0.host) = some (some qc) ∧
      ∀ key, key ≠ t0.host →
        (Dial s t0 o).map (fun r => r.1.sessions key) = some (s.sessions key)) ∧
    (∀ (t0 : DialCall) (s : State) (o : Outcome), t0.pc = .load1 →
      Dial s t0 o = some (s, match s.sessions t0.host with
        | some qc => { t0 with qc := some qc, pc := .openStream }
        | none => { t0 with qc := none, pc := .loadTicket })) ∧
    (∀ (t0 : DialCall) (s : State) (o : Outcome), t0.pc = .load2 →
      Dial s t0 o = some (s, match s.sessions t0.host with
        | some qc => { t0 with qc := some qc, pc := .openStream }
        | none => { t0 with qc := none, pc := .storeTicket })) ∧
    (t.host = Conn.RemoteAddrString { id := s2.nextConn, remote := copyAddr k } ↔
      t.host = EncodeToString (copyAddr k)) ∧
    (∀ addr : List Nat, addr.length = 32 → (∀ b ∈ addr, b < 256) →
      t.host = EncodeToString addr →
      copyAddr k = addr ∧
      t.host = Conn.RemoteAddrString { id := s2.nextConn, remote := copyAddr k }) := by
  refine ⟨?_, ?_, ?_, ?_, ?_, ?_⟩
  · simp [dialRun, Dial, hpc, hk]
  · intro t0 qc s o hpc0
    refine ⟨by simp [Dial, hpc0, SyncMap.Store], ?_⟩
    intro key hne
    simp [Dial, hpc0, SyncMap.Store, hne]
  · intro t0 s o hpc0
    simp only [Dial, hpc0, SyncMap.Load]
    cases s.sessions t0.host <;> rfl
  · intro t0 s o hpc0
    simp only [Dial, hpc0, SyncMap.Load]
    cases s.sessions t0.host <;> rfl
  · simp [Conn.RemoteAddrString]
  · intro addr hlen hb hhost
    have hk2 : DecodeString t.host = some addr := by
      rw [hhost]; exact DecodeString_EncodeToString addr hb
    have hka : k = addr := by
      rw [hk] at hk2
      exact Option.some.inj hk2
    have hc : copyAddr k = addr := by rw [hka]; exact copyAddr_of_length addr hlen
    exact ⟨hc, by simp [Conn.RemoteAddrString, hc, hhost]⟩

/-- An instance of `Dial_registry_key`: a call of `Dial("AB")`, which
decodes to the one byte 171 and connects to `peerAddr`. -/
theorem Dial_registry_key_witness :
    dialRun { DialCall.new 0 "AB" with pc := .decode (.dial 0 0) }
        [(State.init, .ok), (State.init, .ok)]
      = some { DialCall.new 0 "AB" with
                 qc := some { id := 0, remote := peerAddr },
                 pc := .storeConn { id := 0, remote := peerAddr }, connects := 1 } :=
  (Dial_registry_key { DialCall.new 0 "AB" with pc := .decode (.dial 0 0) } (.dial 0 0) [171]
    State.init State.init .ok rfl (by decide)).1

/-! ## Release of a waiter by an inbound connection (C10) -/

/-- C10, as stated, fails, in two ways. In `waiterOtherKey` call 1 waits on
the ticket of call 0, both calls being for the upper-case spelling of the
address of the peer; the accept loop handles an inbound connection of the
peer under the lowercase string, finds no ticket there and cancels none:
call 1 is still blocked. In `staleLoopDelete` call 1 waits on the ticket
for the lowercase string with no connection registered (after the first 23
events); the accept loop registers the inbound connection 2 and cancels the
ticket (after 28 events); the stream loop of the earlier connection 1 then
ends and deletes the entry, and call 1, released, finds no connection,
stores a ticket of its own and enters `transport.Dial`. -/
theorem inbound_release_fails :
    (exec State.init waiterOtherKey).map
        (fun s => (s.calls.map (fun t => t.pc), s.sessions peerHost, s.dials peerHostUpper,
          (Ctx.dial 0 0).isDone s.cancelled, s.acceptor, (step s (.dial 1 .ok)).isNone))
      = some ([.connect (.dial 0 0) peerAddr, .wait (.dial 0 0)],
              some { id := 0, remote := peerAddr }, some (.dial 0 0), false, .accept, true) ∧
    (exec State.init (staleLoopDelete.take 23)).map
        (fun s => (s.calls.map (fun t => t.pc), s.sessions peerHost, s.dials peerHost,
          (Ctx.dial 0 0).isDone s.cancelled, s.acceptor))
      = some ([.connect (.dial 0 0) peerAddr, .wait (.dial 0 0)], none, some (.dial 0 0),
              false, .accept) ∧
    (exec State.init (staleLoopDelete.take 28)).map
        (fun s => (s.sessions peerHost, s.dials peerHost, (Ctx.dial 0 0).isDone s.cancelled))
      = some (some { id := 2, remote := peerAddr }, none, true) ∧
    (exec State.init staleLoopDelete).map
        (fun s => (s.calls.map (fun t => (t.pc, t.tickets, t.connects)), s.sessions peerHost,
          s.dials peerHost))
      = some ([(.connect (.dial 0 0) peerAddr, 1, 1), (.connect (.dial 1 0) peerAddr, 1, 1)],
              none, some (.dial 1 0)) := by
  refine ⟨by rfl, by decide, by decide, by decide⟩

/-- C10, amended, for a call `i` that waits on the ticket `d` and whose host
string is the string form of the address `remote` of the inbound
connection. First, with the steps taken in sequence from a state where the
ticket is registered and not done, no connection of the peer is registered
and the accept loop is in `listener.Accept`: after the `Store` of the loop
(state `s1`) the connection is registered while the ticket is still
registered and not done and call `i` is blocked; after the steps of the
loop on the tickets (state `s2`) the ticket is removed and done; the next
two steps of call `i` find the connection at the second registry lookup,
and the call is about to open a stream on it with no ticket stored and no
connect started. Second, in any interleaving: each of the three steps of
the loop (`Store`, `LoadAndDelete` on the tickets, `CancelFunc`) has its
effect in whatever state it is taken, the `Store` leaving tickets and
contexts as they are; call `i` is as it was after any list of events that
leaves the ticket not done; and once the ticket is done, call `i` opens its
stream, with no ticket stored and no connect started, on the connection it
finds at its second lookup. -/
theorem inbound_releases_waiter (s : State) (remote : List Nat) (i : Nat) (t : DialCall)
    (d : Ctx) (o1 o2 : Outcome) (hacc : s.acceptor = .accept) (ht : s.calls[i]? = some t)
    (hpc : t.pc = .wait d) (hhost : t.host = EncodeToString remote)
    (hticket : s.dials t.host = some d) (hnone : s.sessions t.host = none)
    (hnd : d.isDone s.cancelled = false) :
    (∃ s1 s2 s3,
      exec s [.inbound remote, .acceptor, .acceptor] = some s1 ∧
      s1.sessions t.host = some { id := s.nextConn, remote := remote } ∧
      s1.dials t.host = some d ∧ d.isDone s1.cancelled = false ∧
      step s1 (.dial i o1) = none ∧
      exec s1 [.acceptor, .acceptor] = some s2 ∧
      d.isDone s2.cancelled = true ∧ s2.dials t.host = none ∧
      s2.sessions t.host = some { id := s.nextConn, remote := remote } ∧
      exec s2 [.dial i o1, .dial i o2] = some s3 ∧
      s3.calls[i]? = some { t with qc := some { id := s.nextConn, remote := remote },
                                   pc := .openStream } ∧
      s3.dials t.host = none) ∧
    (∀ (qc : Conn) (sa sb sc : State), qc.RemoteAddrString = t.host →
      sa.acceptor = .install qc → sb.acceptor = .takeTicket qc → sb.dials t.host = some d →
      sc.acceptor = .cancel qc d →
      (∃ sa1, step sa .acceptor = some sa1 ∧ sa1.acceptor = .takeTicket qc ∧
        sa1.sessions t.host = some qc ∧ sa1.dials = sa.dials ∧
        sa1.cancelled = sa.cancelled) ∧
      (∃ sb1, step sb .acceptor = some sb1 ∧ sb1.acceptor = .cancel qc d ∧
        sb1.dials t.host = none ∧ sb1.sessions = sb.sessions ∧
        sb1.cancelled = sb.cancelled) ∧
      (∃ sc1, step sc .acceptor = some sc1 ∧ sc1.acceptor = .spawn qc ∧
        d.isDone sc1.cancelled = true ∧ sc1.sessions = sc.sessions)) ∧
    (∀ (es : List Event) (s4 : State), exec s es = some s4 →
      d.isDone s4.cancelled = false → s4.calls[i]? = some t) ∧
    (∀ (sd se : State) (od oe : Outcome) (c : Conn),
      d.isDone sd.cancelled = true → se.sessions t.host = some c →
      dialRun t [(sd, od), (se, oe)] = some { t with qc := some c, pc := .openStream } ∧
      (Dial sd t od).map (fun r => r.1.dials) = some sd.dials ∧
      (Dial se { t with pc := .load2 } oe).map (fun r => r.1.dials) = some se.dials) := by
  refine ⟨?_, ?_, ?_, ?_⟩
  · have hlt : i < s.calls.length := by
      by_contra hge
      rw [List.getElem?_eq_none (by omega)] at ht
      cases ht
    have hdone : d.isDone (d :: s.cancelled) = true := by cases d <;> simp [Ctx.isDone]
    refine ⟨{ s with sessions := (s.sessions.Delete (EncodeToString remote)).Store
                        (EncodeToString remote) { id := s.nextConn, remote := remote },
                     nextConn := s.nextConn + 1,
                     acceptor := .takeTicket { id := s.nextConn, remote := remote } },
            { s with sessions := (s.sessions.Delete (EncodeToString remote)).Store
                        (EncodeToString remote) { id := s.nextConn, remote := remote },
                     dials := s.dials.Delete (EncodeToString remote),
                     cancelled := d :: s.cancelled,
                     nextConn := s.nextConn + 1,
                     acceptor := .spawn { id := s.nextConn, remote := remote } },
            { s with sessions := (s.sessions.Delete (EncodeToString remote)).Store
                        (EncodeToString remote) { id := s.nextConn, remote := remote },
                     dials := s.dials.Delete (EncodeToString remote),
                     cancelled := d :: s.cancelled,
                     nextConn := s.nextConn + 1,
                     acceptor := .spawn { id := s.nextConn, remote := remote },
                     calls := (s.calls.set i { t with pc := .load2 }).set i
                        { t with qc := some { id := s.nextConn, remote := remote },
                                 pc := .openStream } },
            ?_, ?_, ?_, ?_, ?_, ?_, ?_, ?_, ?_, ?_, ?_, ?_⟩
    · simp [exec, step, hacc, connectionAcceptLoop, SyncMap.LoadAndDelete, Conn.RemoteAddrString,
        ← hhost, hnone]
    · simp [SyncMap.Store, hhost]
    · simpa using hticket
    · simpa using hnd
    · simp [step, ht, Dial, hpc, hnd]
    · simp [exec, step, connectionAcceptLoop, SyncMap.LoadAndDelete, Conn.RemoteAddrString,
        ← hhost, hticket]
    · exact hdone
    · simp [SyncMap.Delete, hhost]
    · simp [SyncMap.Store, hhost]
    · simp [exec, step, ht, Dial, hpc, hdone, hlt, SyncMap.Load, SyncMap.Store, hhost]
    · simp [hlt]
    · simp [SyncMap.Delete, hhost]
  · intro qc sa sb sc hkey ha hb hbt hc
    refine ⟨⟨{ sa with sessions := sa.sessions.Store qc.RemoteAddrString qc,
                       acceptor := .takeTicket qc }, ?_, rfl, ?_, rfl, rfl⟩,
            ⟨{ sb with dials := sb.dials.Delete qc.RemoteAddrString,
                       acceptor := .cancel qc d }, ?_, rfl, ?_, rfl, rfl⟩,
            ⟨{ sc with cancelled := d :: sc.cancelled, acceptor := .spawn qc }, ?_, rfl, ?_,
              rfl⟩⟩
    · simp [step, connectionAcceptLoop, ha]
    · simp [SyncMap.Store, hkey]
    · simp [step, connectionAcceptLoop, hb, SyncMap.LoadAndDelete, hkey, hbt]
    · simp [SyncMap.Delete, hkey]
    · simp [step, connectionAcceptLoop, hc]
    · cases d <;> simp [Ctx.isDone]
  · intro es s4 hex hd
    exact exec_wait_blocked es s s4 i t d ht hpc hex hd
  · intro sd se od oe c hdone hc
    simp [dialRun, Dial, hpc, hdone, hc, SyncMap.Load]

/-- An instance of `inbound_releases_waiter`: call 1 waits on the ticket of
call 0 for the peer when a connection of the peer comes in. -/
theorem inbound_releases_waiter_witness :
    ∃ s1 s2 s3,
      exec waitingState [.inbound peerAddr, .acceptor, .acceptor] = some s1 ∧
      exec s1 [.acceptor, .acceptor] = some s2 ∧
      exec s2 [.dial 1 .ok, .dial 1 .ok] = some s3 ∧
      s3.calls[1]? = some { DialCall.new 1 peerHost with
        qc := some { id := 0, remote := peerAddr }, pc := .openStream } :=
  let ⟨s1, s2, s3, h1, _, _, _, _, h2, _, _, _, h3, h4, _⟩ :=
    (inbound_releases_waiter waitingState peerAddr 1
      { DialCall.new 1 peerHost with pc := .wait (.dial 0 0) } (.dial 0 0) .ok .ok
      (by decide) (by decide) rfl rfl (by decide) (by decide) (by decide)).1
  ⟨s1, s2, s3, h1, h2, h3, h4⟩

end Ruvmail
